import Mathlib

/-!
Harp: a verification development of `server.go`.

A shallow embedding of the deployment engine of harp (`src/server.go`):
address parsing, per-host initialisation, the script generators
(sync, restart, save-release, deploy), the heredoc script writer and the
managed-file reconciler, followed by theorems about them.

Conventions of the embedding.

* Go strings are Lean `String`s; the algorithms run on `List Char`.
* A function that may terminate the process (`os.Exit(1)`, `exitf`) returns a
  `Run`: `Run.ok v` when it returns `v`, `Run.exit` when the process exits.
* The local file system, the remote host and the clock are read through a
  `World`; the order in which `range` visits a Go map is a `MapOrder`.
* A Go `map[string]string` is the list of its entries.
-/

set_option autoImplicit false
set_option maxRecDepth 100000

namespace Harp

/-! ## Outcomes -/

/-- Outcome of a call: it returns a value, or the process is terminated
(`os.Exit(1)`, `exitf`), or the call uses a `text/template` construct that
this development does not cover. -/
inductive Run (α : Type) where
  | ok (a : α)
  | exit
  | unmodelled
  deriving DecidableEq, Repr

/-- Sequencing of calls: the continuation runs only when the first call returns. -/
def Run.bind {α β : Type} (r : Run α) (f : α → Run β) : Run β :=
  match r with
  | Run.ok a => f a
  | Run.exit => Run.exit
  | Run.unmodelled => Run.unmodelled

/-! ## Data model -/

/-- An entry of `cfg.App.Files`: the fields `Path` and `Delete` that `server.go` reads. -/
structure File where
  Path : String
  Delete : Bool
  deriving DecidableEq, Repr

/-- The application section of the configuration (`cfg.App`), with the fields
that `server.go` reads. `Envs` lists the entries of the Go map. -/
structure App where
  Name : String
  ImportPath : String
  Files : List File
  Envs : List (String × String)
  Args : List String
  KillSig : String
  DeployScript : String
  RestartScript : String
  deriving DecidableEq, Repr

/-- The global configuration `cfg`, with the fields that `server.go` reads. -/
structure Config where
  App : App
  NoRollback : Bool
  deriving DecidableEq, Repr

/-- The `Server` struct. `client` records whether the ssh client is non-nil;
`Config` is `none` for a nil pointer and otherwise the configuration it points to. -/
structure Server where
  ID : String
  Envs : List (String × String)
  Home : String
  GoPath : String
  LogDir : String
  User : String
  Host : String
  Port : String
  Set : String
  client : Bool
  Config : Option Config
  deriving DecidableEq, Repr

/-- The zero value `var s Server`. -/
def Server.zero : Server :=
  Server.mk "" [] "" "" "" "" "" "" "" false none

/-- A wall-clock reading, as `time.Now()` returns it in local time. -/
structure Time where
  year : Nat
  month : Nat
  day : Nat
  hour : Nat
  minute : Nat
  second : Nat
  deriving DecidableEq, Repr

/-- Everything `server.go` reads from outside the process.

* `stat p` is `os.Stat(p)`: `none` for an error, `some d` with `d = fi.IsDir()`.
* `readFile p` is `ioutil.ReadFile(p)`: `none` for an error.
* `isPrint` is the printable-rune table of `strconv`.
* `connect user addr` tells whether dialing the agent socket, listing its
  signers and `ssh.Dial("tcp", addr, ...)` for `user` all succeed.
* `newSession` tells whether `client.NewSession()` succeeds.
* `combinedOutput cmd` is `session.CombinedOutput(cmd)`: the output and
  whether the error is nil.
* `runCmd cmd` tells whether `runCmd(client, cmd)`, declared in another file
  of the package, returns (rather than terminating the process).
* `now` is `time.Now()`. -/
structure World where
  stat : String → Option Bool
  readFile : String → Option String
  isPrint : Char → Bool
  connect : String → String → Bool
  newSession : Bool
  combinedOutput : String → String × Bool
  runCmd : String → Bool
  now : Time

/-- The order in which a `range` loop visits the entries of a Go map, given
the entries: the language leaves it unspecified, and it may differ from one
loop to the next. -/
abbrev MapOrder := (α : Type) → List α → List α

/-- A map order visits every entry exactly once. -/
def MapOrder.Valid (o : MapOrder) : Prop :=
  ∀ (α : Type) (l : List α), (o α l).Perm l

/-! ## Address parsing: `urlRegexp` and `newOneShotServer` -/

/-- Greedy repetition of a one-character class with backtracking, as the
leftmost-first matching of Go's `regexp` resolves `x+` (`min = 1`) and `x*`
(`min = 0`): the longest run of characters in the class is tried first and
given back one character at a time while the continuation `k` fails. `k`
receives the text matched and the rest of the input. -/
def rep {α : Type} (p : Char → Bool) (min : Nat) :
    List Char → (List Char → List Char → Option α) → Option α
  | [], k => if min = 0 then k [] [] else none
  | c :: cs, k =>
    if p c then
      match rep p (min - 1) cs (fun m r => k (c :: m) r) with
      | some x => some x
      | none => if min = 0 then k [] (c :: cs) else none
    else if min = 0 then k [] (c :: cs) else none

/-- The pattern `(?P<user>[^@]+)@(?P<host>[^:]+):(?P<port>.*)` matched at the
start of the input; the result holds the three submatches. `[^@]` and `[^:]`
match a newline, `.` does not. -/
def urlRegexpAt (s : List Char) : Option (List Char × List Char × List Char) :=
  rep (fun c => c != '@') 1 s fun user r1 =>
    match r1 with
    | '@' :: r2 =>
      rep (fun c => c != ':') 1 r2 fun host r3 =>
        match r3 with
        | ':' :: r4 => rep (fun c => c != '\n') 0 r4 fun port _ => some (user, host, port)
        | _ => none
    | _ => none

/-- The unanchored search `urlRegexp.FindStringSubmatch`: the match at the
leftmost position where the pattern matches. -/
def urlRegexpFind : List Char → Option (List Char × List Char × List Char)
  | [] => urlRegexpAt []
  | c :: cs =>
    match urlRegexpAt (c :: cs) with
    | some m => some m
    | none => urlRegexpFind cs

/-- The function `urlRegexp.MatchString`. -/
def urlRegexpMatchString (url : String) : Bool :=
  (urlRegexpFind url.data).isSome

/-- The rune test `unicode.IsSpace`. -/
def isSpace (c : Char) : Bool :=
  c == '\t' || c == '\n' || c == '\x0b' || c == '\x0c' || c == '\r' || c == ' ' ||
  c.toNat == 0x85 || c.toNat == 0xA0 || c.toNat == 0x1680 ||
  (0x2000 ≤ c.toNat && c.toNat ≤ 0x200a) ||
  c.toNat == 0x2028 || c.toNat == 0x2029 || c.toNat == 0x202f ||
  c.toNat == 0x205f || c.toNat == 0x3000

/-- The function `strings.TrimSpace`. -/
def trimSpace (s : String) : String :=
  String.mk ((s.data.dropWhile isSpace).reverse.dropWhile isSpace).reverse

/-- The method `initClient`: connects, or terminates the process. -/
def Server.initClient (w : World) (s : Server) : Run Server :=
  if w.connect s.User (s.Host ++ s.Port) then Run.ok { s with client := true } else Run.exit

/-- The method `getSession`: connects when there is no client yet, then opens
a session; the server returned carries the client. -/
def Server.getSession (w : World) (s : Server) : Run Server :=
  (if s.client then Run.ok s else s.initClient w).bind fun s1 =>
    if w.newSession then Run.ok s1 else Run.exit

/-- The method `initSetUp`. -/
def Server.initSetUp (w : World) (cfg : Harp.Config) (s : Server) : Run Server :=
  (if s.client then Run.ok s else s.initClient w).bind fun s1 =>
    if w.runCmd ("mkdir -p harp/" ++ cfg.App.Name ++ "/files") then Run.ok s1 else Run.exit

/-- One probe of `initPathes`: a session, a command, the trimmed output.
An error of the command is printed and otherwise ignored. -/
def Server.probe (w : World) (s : Server) (cmd : String) : Run (Server × String) :=
  (s.getSession w).bind fun s1 => Run.ok (s1, trimSpace (w.combinedOutput cmd).1)

/-- The method `initPathes`. -/
def Server.initPathes (w : World) (s : Server) : Run Server :=
  (if s.Home = "" then
      (s.probe w "echo $HOME").bind fun r => Run.ok { r.1 with Home := r.2 }
    else Run.ok s).bind fun s1 =>
  (if s1.Home = "" then
      (s1.probe w "pwd").bind fun r => Run.ok { r.1 with Home := r.2 }
    else Run.ok s1).bind fun s2 =>
  (if s2.GoPath = "" then
      (s2.probe w "echo $GOPATH").bind fun r => Run.ok { r.1 with GoPath := r.2 }
    else Run.ok s2).bind fun s3 =>
  Run.ok (if s3.GoPath = "" then { s3 with GoPath := s3.Home } else s3)

/-- The method `init`. -/
def Server.init (w : World) (cfg : Harp.Config) (s : Server) (set : String) : Run Server :=
  let s1 := { s with Config := some cfg, Set := set }
  if s1.User = "" then Run.exit
  else if s1.Host = "" then Run.exit
  else
    let s2 := if s1.Port = "" then { s1 with Port := ":22" } else s1
    (s2.initSetUp w cfg).bind fun s3 => s3.initPathes w

/-- The function `newOneShotServer`; `none` is the nil pointer. -/
def newOneShotServer (w : World) (cfg : Config) (testMode : Bool) (url : String) :
    Run (Option Server) :=
  if !urlRegexpMatchString url then Run.ok none
  else
    match urlRegexpFind url.data with
    | none => Run.ok none
    | some (user, host, port) =>
      let s := { Server.zero with
        User := String.mk user, Host := String.mk host, Port := ":" ++ String.mk port }
      if !testMode then (s.init w cfg "").bind fun s1 => Run.ok (some s1)
      else Run.ok (some s)

/-! ## Library functions used by the script generators -/

/-- The replacement loop of `strings.Replace(s, old, new, -1)` for a non-empty
`old`: the input is scanned from the left, each occurrence of `old` found is
replaced by `new` and the scan resumes after it. `skip` counts the characters
of an occurrence that are still to be passed over. -/
def replaceGo (old new : List Char) : Nat → List Char → List Char
  | _, [] => []
  | skip + 1, _ :: cs => replaceGo old new skip cs
  | 0, c :: cs =>
    if old.isPrefixOf (c :: cs) then new ++ replaceGo old new (old.length - 1) cs
    else c :: replaceGo old new 0 cs

/-- The function `strings.Replace(s, old, new, -1)`. With an empty `old`, `new`
is inserted before every character and at the end. -/
def stringsReplace (s old new : String) : String :=
  if old.data = [] then String.mk (new.data ++ s.data.flatMap fun c => c :: new.data)
  else String.mk (replaceGo old.data new.data 0 s.data)

/-- Splitting at every occurrence of one separator character; the result
always has one more piece than there are separators. -/
def splitOnChar (sep : Char) : List Char → List (List Char)
  | [] => [[]]
  | c :: cs =>
    if c = sep then [] :: splitOnChar sep cs
    else
      match splitOnChar sep cs with
      | [] => [[c]]
      | x :: xs => (c :: x) :: xs

/-- The function `strings.Split(s, "\n")`. -/
def splitLines (s : String) : List String :=
  (splitOnChar '\n' s.data).map String.mk

/-- The function `strings.TrimPrefix`. -/
def trimPrefix (s pre : String) : String :=
  if pre.data.isPrefixOf s.data then String.mk (s.data.drop pre.data.length) else s

/-- One step of `filepath.Clean` on the stack of path elements kept so far
(last element first): empty elements and `.` are dropped, `..` removes the
last element kept unless there is none or it is itself `..`; then `..` is kept
in a relative path and dropped in a rooted one. -/
def cleanStep (rooted : Bool) (st : List (List Char)) (comp : List Char) : List (List Char) :=
  if comp = [] ∨ comp = ['.'] then st
  else if comp = ['.', '.'] then
    match st with
    | top :: below => if top = ['.', '.'] then comp :: st else below
    | [] => if rooted then [] else [comp]
  else comp :: st

/-- The function `filepath.Clean` (Unix: the separator is `/`, no volume name). -/
def filepathClean (path : String) : String :=
  if path.data = [] then "."
  else
    let rooted := path.data.head? == some '/'
    let st := (splitOnChar '/' path.data).foldl (cleanStep rooted) []
    let out := (if rooted then ['/'] else []) ++ List.intercalate ['/'] st.reverse
    if out = [] then "." else String.mk out

/-- The function `filepath.Join`: the elements from the first non-empty one
on are joined with `/` and the result is cleaned; it is empty when every
element is empty. -/
def filepathJoin (elem : List String) : String :=
  match elem.dropWhile (fun e => e == "") with
  | [] => ""
  | rest => filepathClean (String.intercalate "/" rest)

/-- The prefix of a path up to and including its last `/` (empty when it has none). -/
def upToLastSlash : List Char → List Char
  | [] => []
  | c :: cs =>
    if '/' ∈ cs then c :: upToLastSlash cs
    else if c = '/' then [c] else []

/-- The function `filepath.Dir`. -/
def filepathDir (path : String) : String :=
  filepathClean (String.mk (upToLastSlash path.data))

/-- The digit `lowerhex[n]`. -/
def lowerhex (n : Nat) : Char :=
  "0123456789abcdef".data.getD (n % 16) '0'

/-- The escaping of one rune by `strconv.Quote`. -/
def quoteRune (isPrint : Char → Bool) (r : Char) : List Char :=
  if r = '"' ∨ r = '\\' then ['\\', r]
  else if isPrint r then [r]
  else if r = '\x07' then ['\\', 'a']
  else if r = '\x08' then ['\\', 'b']
  else if r = '\x0c' then ['\\', 'f']
  else if r = '\n' then ['\\', 'n']
  else if r = '\r' then ['\\', 'r']
  else if r = '\t' then ['\\', 't']
  else if r = '\x0b' then ['\\', 'v']
  else if r.toNat < 32 ∨ r.toNat = 127 then
    ['\\', 'x', lowerhex (r.toNat / 16), lowerhex r.toNat]
  else if r.toNat < 65536 then
    ['\\', 'u', lowerhex (r.toNat / 4096), lowerhex (r.toNat / 256),
      lowerhex (r.toNat / 16), lowerhex r.toNat]
  else
    ['\\', 'U', lowerhex (r.toNat / 268435456), lowerhex (r.toNat / 16777216),
      lowerhex (r.toNat / 1048576), lowerhex (r.toNat / 65536),
      lowerhex (r.toNat / 4096), lowerhex (r.toNat / 256),
      lowerhex (r.toNat / 16), lowerhex r.toNat]

/-- The verb `%q` of `fmt.Sprintf` on a string: `strconv.Quote`. -/
def goQuote (isPrint : Char → Bool) (s : String) : String :=
  String.mk ('"' :: s.data.flatMap (quoteRune isPrint) ++ ['"'])

/-- A number in two digits, as the layout elements `06`, `01`, `02`, `15`,
`04` and `05` of `Time.Format` print it. -/
def pad2 (n : Nat) : String :=
  if n < 10 then "0" ++ Nat.repr n else Nat.repr n

/-- The call `t.Format("06-01-02-15:04:05")`. -/
def Time.format (t : Time) : String :=
  pad2 (t.year % 100) ++ "-" ++ pad2 t.month ++ "-" ++ pad2 t.day ++ "-" ++
    pad2 t.hour ++ ":" ++ pad2 t.minute ++ ":" ++ pad2 t.second

/-! ## Script generators -/

/-- The state of the `for _, path := range GoPaths` loop of `syncFilesScript`:
`hasErr`, `src` and `dst`. -/
structure ProbeState where
  hasErr : Bool
  src : String
  dst : String
  deriving DecidableEq, Repr

/-- One iteration of the loop over `GoPaths` in `syncFilesScript`. -/
def probeStep (w : World) (odst : String) (st : ProbeState) (path : String) : ProbeState :=
  match w.stat (filepathJoin [path, "src", odst]) with
  | none => ProbeState.mk true st.src st.dst
  | some isDir =>
    if isDir then ProbeState.mk false (st.src ++ "/") (st.dst ++ "/")
    else ProbeState.mk false st.src st.dst

/-- The body of the loop over `cfg.App.Files` in `syncFilesScript`: the lines
it adds to the script for one entry, or the fatal exit. -/
def syncFileEntry (w : World) (cfg : Config) (GoPaths : List String) (s : Server)
    (dstf : File) : Run String :=
  let dst := dstf.Path
  let src := s.Home ++ "/harp/" ++ cfg.App.Name ++ "/files/" ++ stringsReplace dst "/" "_"
  let odst := dst
  let dst := s.GoPath ++ "/src/" ++ dst
  let st := GoPaths.foldl (probeStep w odst) (ProbeState.mk false src dst)
  if st.hasErr then Run.exit
  else
    let delete := if dstf.Delete then "--delete" else ""
    Run.ok ("mkdir -p \"" ++ filepathDir st.dst ++ "\"\n" ++
      "rsync -az " ++ delete ++ " \"" ++ st.src ++ "\" \"" ++ st.dst ++ "\"\n")

/-- The loop over `cfg.App.Files` in `syncFilesScript`, started with the
script built so far. -/
def syncFilesLoop (w : World) (cfg : Config) (GoPaths : List String) (s : Server) :
    List File → String → Run String
  | [], script => Run.ok script
  | dstf :: rest, script =>
    (syncFileEntry w cfg GoPaths s dstf).bind fun lines =>
      syncFilesLoop w cfg GoPaths s rest (script ++ lines)

/-- Removal of one final newline: `if script[len(script)-1] == '\n'
{ script = script[:len(script)-1] }`. -/
def dropFinalNewline (script : String) : String :=
  if script.data.getLast? = some '\n' then String.mk script.data.dropLast else script

/-- The method `syncFilesScript`. -/
def Server.syncFilesScript (w : World) (cfg : Harp.Config) (GoPaths : List String)
    (s : Server) : Run String :=
  let script := "mkdir -p " ++ s.GoPath ++ "/bin " ++ s.GoPath ++ "/src " ++ s.GoPath ++
    "/src/" ++ cfg.App.ImportPath ++ "\n"
  (syncFilesLoop w cfg GoPaths s cfg.App.Files script).bind fun script =>
    let script := script ++ "cp " ++ s.Home ++ "/harp/" ++ cfg.App.Name ++
      "/harp-build.info " ++ s.GoPath ++ "/src/" ++ cfg.App.ImportPath ++ "/\n"
    let script := script ++ "rsync -az " ++ s.Home ++ "/harp/" ++ cfg.App.Name ++ "/" ++
      cfg.App.Name ++ " " ++ s.GoPath ++ "/bin/" ++ cfg.App.Name ++ "\n"
    Run.ok (dropFinalNewline script)

/-- The method `GetLogDir`. -/
def Server.GetLogDir (cfg : Harp.Config) (s : Server) : String :=
  if s.LogDir = "" then s.Home ++ "/harp/" ++ cfg.App.Name ++ "/log" else s.LogDir

/-- The method `LogPath`. -/
def Server.LogPath (cfg : Harp.Config) (s : Server) : String :=
  filepathJoin [s.GetLogDir cfg, "app.log"]

/-- The method `PIDPath`. -/
def Server.PIDPath (cfg : Harp.Config) (s : Server) : String :=
  s.Home ++ "/harp/" ++ cfg.App.Name ++ "/app.pid"

/-- The call `restartScriptTmpl.Execute(&buf, s)`: the text of the template
with its five actions evaluated on the server. The action
`{{.Config.App.KillSig}}` fails on a nil `Config`, and `restartScript` then
terminates the process. -/
def restartScriptTmpl (cfg : Config) (s : Server) : Run String :=
  match s.Config with
  | none => Run.exit
  | some c =>
    Run.ok ("if [[ -f " ++ s.PIDPath cfg ++ " ]]; then\n" ++
      "\ttarget=$(cat " ++ s.PIDPath cfg ++ ");\n" ++
      "\tif ps -p $target > /dev/null; then\n" ++
      "\t\tkill -" ++ c.App.KillSig ++ " $target; > /dev/null 2>&1;\n" ++
      "\tfi\n" ++
      "fi\n" ++
      "mkdir -p " ++ s.GetLogDir cfg ++ "\n" ++
      "touch " ++ s.LogPath cfg ++ "\n")

/-- The text added to `envs` by one pass of `for k, v := range m`, the
entries visited in the order given. -/
def envAssignments (entries : List (String × String)) : String :=
  String.join (entries.map fun kv => " " ++ kv.1 ++ "=\"" ++ kv.2 ++ "\"")

/-- The method `restartScript`. The two `range` loops are given an order
each: `oApp` for `app.Envs`, `oHost` for `s.Envs`. -/
def Server.restartScript (w : World) (oApp oHost : MapOrder) (cfg : Harp.Config)
    (s : Server) : Run String :=
  let app := cfg.App
  let log := s.LogPath cfg
  let pid := s.PIDPath cfg
  (restartScriptTmpl cfg s).bind fun script =>
    let envs := "GOPATH=" ++ goQuote w.isPrint s.GoPath
    let envs := envs ++ envAssignments (oApp _ app.Envs)
    let envs := envs ++ envAssignments (oHost _ s.Envs)
    let args := String.intercalate " " app.Args
    let script := script ++ "cd " ++ s.GoPath ++ "/src/" ++ app.ImportPath ++ "\n"
    let script := script ++ envs ++ " nohup " ++ s.GoPath ++ "/bin/" ++ app.Name ++ " " ++
      args ++ " >> " ++ log ++ " 2>&1 &\n"
    let script := script ++ "echo $! > " ++ pid ++ "\n"
    Run.ok (script ++ "cd " ++ s.Home)

/-- The package variables `releaseTsOnce` and `releaseTs`: `done` tells
whether the `sync.Once` has run. -/
structure ReleaseState where
  done : Bool
  releaseTs : String
  deriving DecidableEq, Repr

/-- The state of `releaseTsOnce` and `releaseTs` when the process starts. -/
def ReleaseState.initial : ReleaseState :=
  ReleaseState.mk false ""

/-- The call `releaseTsOnce.Do(func() { releaseTs = time.Now().Format(...) })`. -/
def ReleaseState.once (g : ReleaseState) (now : Time) : ReleaseState :=
  if g.done then g else ReleaseState.mk true now.format

/-- The method `saveReleaseScript`, called when the clock reads `now`: the
script and the state of the release timestamp after the call. -/
def Server.saveReleaseScript (cfg : Harp.Config) (g : ReleaseState) (now : Time)
    (s : Server) : String × ReleaseState :=
  if cfg.NoRollback then ("", g)
  else
    let g1 := g.once now
    ("cd " ++ s.Home ++ "/harp/" ++ cfg.App.Name ++ "\n" ++
      "if [[ -f harp-build.info ]]; then\n" ++
      "\tmkdir -p releases/" ++ g1.releaseTs ++ "\n" ++
      "\tcp -rf " ++ cfg.App.Name ++
        " harp-build.info files kill.sh restart.sh rollback.sh releases/" ++
        g1.releaseTs ++ "\n" ++
      "fi", g1)

/-- The map that `scriptData` returns: the three script texts, next to the
application and the server. -/
structure ScriptData where
  App : App
  Server : Server
  SyncFiles : String
  RestartServer : String
  SaveRelease : String
  deriving DecidableEq, Repr

/-- The method `scriptData`. The three scripts are generated in the order of
the map literal; the state of the release timestamp is returned with the map. -/
def Server.scriptData (w : World) (oApp oHost : MapOrder) (cfg : Harp.Config)
    (GoPaths : List String) (g : ReleaseState) (s : Server) : Run (ScriptData × ReleaseState) :=
  (s.syncFilesScript w cfg GoPaths).bind fun sync =>
    (s.restartScript w oApp oHost cfg).bind fun restart =>
      let save := s.saveReleaseScript cfg g w.now
      Run.ok (ScriptData.mk cfg.App s sync restart save.1, save.2)

/-! ## Deploy script: the `text/template` fragment -/

/-- A node of a parsed template: literal text, or an action that is a chain
of field names such as `{{.App.Name}}`. -/
inductive TmplNode where
  | text (t : List Char)
  | field (chain : List String)
  deriving DecidableEq, Repr

/-- The white space that the template lexer skips inside an action. -/
def isTmplSpace (c : Char) : Bool :=
  c == ' ' || c == '\t' || c == '\r' || c == '\n'

/-- An ASCII letter, digit or underscore. -/
def isIdentChar (c : Char) : Bool :=
  c.isAlphanum || c == '_'

/-- The field chain written in the body of an action, when the body is
nothing but a field chain `.A.B.C` between optional white space. -/
def fieldChainOf (body : List Char) : Option (List String) :=
  match ((body.dropWhile isTmplSpace).reverse.dropWhile isTmplSpace).reverse with
  | '.' :: rest =>
    let names := splitOnChar '.' rest
    if names.all (fun n => n != [] && n.all isIdentChar) then some (names.map String.mk)
    else none
  | _ => none

/-- The parser of `template.New("").Parse(script)` on the fragment covered:
text outside `{{ }}` is literal, and an action must be a field chain. `acc`
holds, last character first, the text or the action body read so far. Any
other action gives `Run.unmodelled`, and so does an action left open. -/
def tmplParseGo : Bool → List Char → List Char → Run (List TmplNode)
  | false, acc, [] => Run.ok [TmplNode.text acc.reverse]
  | false, acc, [c] => Run.ok [TmplNode.text (c :: acc).reverse]
  | false, acc, c :: d :: cs =>
    if c = '{' ∧ d = '{' then
      (tmplParseGo true [] cs).bind fun ns => Run.ok (TmplNode.text acc.reverse :: ns)
    else tmplParseGo false (c :: acc) (d :: cs)
  | true, _, [] => Run.unmodelled
  | true, _, [_] => Run.unmodelled
  | true, acc, c :: d :: cs =>
    if c = '}' ∧ d = '}' then
      match fieldChainOf acc.reverse with
      | some chain =>
        (tmplParseGo false [] cs).bind fun ns => Run.ok (TmplNode.field chain :: ns)
      | none => Run.unmodelled
    else tmplParseGo true (c :: acc) (d :: cs)

/-- The call `template.New("").Parse(script)`. -/
def tmplParse (script : String) : Run (List TmplNode) :=
  tmplParseGo false [] script.data

/-- The default deploy template. -/
def defaultDeployScript : String :=
  "set -e\n{{.SyncFiles}}\n{{.SaveRelease}}\n{{.RestartServer}}\n"

/-- The value that a field chain denotes in the data of `scriptData`, on the
fragment covered: the three script texts and the string fields of the
application and of the server. -/
def tmplField (d : ScriptData) : List String → Option String
  | ["SyncFiles"] => some d.SyncFiles
  | ["RestartServer"] => some d.RestartServer
  | ["SaveRelease"] => some d.SaveRelease
  | ["App", "Name"] => some d.App.Name
  | ["App", "ImportPath"] => some d.App.ImportPath
  | ["App", "KillSig"] => some d.App.KillSig
  | ["Server", "Home"] => some d.Server.Home
  | ["Server", "GoPath"] => some d.Server.GoPath
  | ["Server", "User"] => some d.Server.User
  | ["Server", "Host"] => some d.Server.Host
  | ["Server", "Port"] => some d.Server.Port
  | _ => none

/-- The call `tmpl.Execute(&buf, data)`: text is copied, the value of a field
chain is printed, and a chain outside the fragment gives `Run.unmodelled`. -/
def tmplExecute (d : ScriptData) : List TmplNode → Run String
  | [] => Run.ok ""
  | TmplNode.text t :: ns => (tmplExecute d ns).bind fun out => Run.ok (String.mk t ++ out)
  | TmplNode.field chain :: ns =>
    match tmplField d chain with
    | some v => (tmplExecute d ns).bind fun out => Run.ok (v ++ out)
    | none => Run.unmodelled

/-- The method `retrieveDeployScript`: the script text, and the state of the
release timestamp after the call. -/
def Server.retrieveDeployScript (w : World) (oApp oHost : MapOrder) (cfg : Harp.Config)
    (GoPaths : List String) (g : ReleaseState) (s : Server) : Run (String × ReleaseState) :=
  (if cfg.App.DeployScript ≠ "" then
      match w.readFile cfg.App.DeployScript with
      | none => Run.exit
      | some cont => Run.ok cont
    else Run.ok defaultDeployScript).bind fun script =>
  (tmplParse script).bind fun tmpl =>
  (s.scriptData w oApp oHost cfg GoPaths g).bind fun d =>
  (tmplExecute d.1 tmpl).bind fun out => Run.ok (out, d.2)

/-! ## Writing a script to the remote host -/

/-- The command that `saveScript` builds with `fmt.Sprintf`, before escaping. -/
def saveScriptText (cfg : Config) (s : Server) (name script : String) : String :=
  "cat <<EOF > " ++ s.Home ++ "/harp/" ++ cfg.App.Name ++ "/" ++ name ++ ".sh\n" ++
    script ++ "\n" ++
    "EOF\n" ++
    "chmod +x " ++ s.Home ++ "/harp/" ++ cfg.App.Name ++ "/" ++ name ++ ".sh\n"

/-- The command that `saveScript` sends: the text above after
`strings.Replace(cmd, "$", "\\$", -1)`. -/
def saveScriptCmd (cfg : Config) (s : Server) (name script : String) : String :=
  stringsReplace (saveScriptText cfg s name script) "$" "\\$"

/-- The method `saveScript`: a session is opened, the command is run, and a
failure of the command terminates the process. -/
def Server.saveScript (w : World) (cfg : Harp.Config) (s : Server) (name script : String) :
    Run Server :=
  (s.getSession w).bind fun s1 =>
    if (w.combinedOutput (saveScriptCmd cfg s name script)).2 then Run.ok s1 else Run.exit

/-! ## Reconciling the managed files -/

/-- A value of the map `localFiles`, which is declared in another file of the
package: the fields `size` and `src` that `diffFiles` prints, and `relDst`,
the result of its method `relDst()`. -/
structure LocalFile where
  size : String
  src : String
  relDst : String
  deriving DecidableEq, Repr

/-- The set `serverFiles` that `diffFiles` builds from the output of the
remote `find`: the non-empty lines, the prefix `fileRoot` removed, each kept once. -/
def serverFilesOf (fileRoot output : String) : List String :=
  (((splitLines output).filter fun f => f ≠ "").map fun f => trimPrefix f fileRoot).dedup

/-- The line printed for a local file that the server does not have. -/
def addedLine (lfile : LocalFile) : String :=
  "+ " ++ lfile.size ++ " " ++ lfile.src ++ "\n"

/-- The line printed for a server file that is not among the local files. -/
def removedLine (sfile : String) : String :=
  "- " ++ sfile ++ "\n"

/-- The variable `fileRoot` of `diffFiles`. -/
def Server.fileRoot (cfg : Harp.Config) (s : Server) : String :=
  s.Home ++ "/harp/" ++ cfg.App.Name ++ "/files/"

/-- The command that `diffFiles` runs on the remote host. -/
def Server.findCmd (cfg : Harp.Config) (s : Server) : String :=
  "if [[ -d \"" ++ s.Home ++ "/harp/" ++ cfg.App.Name ++ "/\" ]]; then\n" ++
    "\t\tfind " ++ s.fileRoot cfg ++ " -type f\n" ++
    "\tfi"

/-- The method `diffFiles`. `localFiles` lists the entries of the map (key and
value), and `tmpDir` is the package variable of that name. -/
def Server.diffFiles (w : World) (o : MapOrder) (cfg : Harp.Config) (tmpDir : String)
    (localFiles : List (String × LocalFile)) (s : Server) : Run String :=
  (s.getSession w).bind fun _ =>
    let r := w.combinedOutput (s.findCmd cfg)
    if !r.2 then Run.exit
    else
      let serverFiles := serverFilesOf (s.fileRoot cfg) r.1
      let added := ((o _ localFiles).filter fun kv => kv.2.relDst ∉ serverFiles).map
        fun kv => addedLine kv.2
      let removed := ((o _ serverFiles).filter fun sfile =>
        filepathJoin [tmpDir, "files", sfile] ∉ localFiles.map Prod.fst).map removedLine
      Run.ok (String.join (added ++ removed))

/-! ## Auxiliary notions for the statements -/

/-- Two servers have the same identity fields `User`, `Host` and `Port`. -/
def SameIdentity (s t : Server) : Prop :=
  t.User = s.User ∧ t.Host = s.Host ∧ t.Port = s.Port

/-- The remote host answers: the connection for `user` at `addr` succeeds,
`runCmd` returns for the set-up command and sessions can be opened. -/
def World.Reachable (w : World) (cfg : Config) (user addr : String) : Prop :=
  w.connect user addr = true ∧
  w.runCmd ("mkdir -p harp/" ++ cfg.App.Name ++ "/files") = true ∧
  w.newSession = true

/-- A world used in the examples: the directory `pkg/conf` under the search
paths `/go1` and `/go2` of the local disk and nowhere else, a custom deploy
script in `deploy.sh`, printable ASCII, and a remote host that answers every
command with an empty output. -/
def exampleWorld : World :=
  World.mk
    (fun p => if p = "/go1/src/pkg/conf" ∨ p = "/go2/src/pkg/conf" then some true else none)
    (fun p => if p = "deploy.sh" then some "echo deploying\n" else none)
    (fun c => 32 ≤ c.toNat && c.toNat < 127)
    (fun _ _ => true)
    true
    (fun _ => ("", true))
    (fun _ => true)
    (Time.mk 2024 1 2 3 4 5)

/-- The application `web` without managed files. -/
def exampleConfig : Config :=
  Config.mk (App.mk "web" "example.com/web" [] [] [] "TERM" "" "") false

/-- A server that has been initialised for `exampleConfig`. -/
def exampleServer : Server :=
  Server.mk "" [] "/home/deploy" "/home/deploy/go" "" "deploy" "example.com" ":22" "" true
    (some exampleConfig)

/-- The application `web` with two entries in its environment map. -/
def envConfig : Config :=
  Config.mk (App.mk "web" "example.com/web" [] [("A", "1"), ("B", "2")] [] "TERM" "" "") false

/-- A server with two entries in its environment map. -/
def envServer : Server :=
  Server.mk "" [("X", "x"), ("Y", "y")] "/home/deploy" "/home/deploy/go" "" "deploy"
    "example.com" ":22" "" true (some envConfig)

/-- The application `web` with one entry in its environment map. -/
def oneEnvConfig : Config :=
  Config.mk (App.mk "web" "example.com/web" [] [("A", "1")] [] "TERM" "" "") false

/-- A server with one entry in its environment map. -/
def oneEnvServer : Server :=
  Server.mk "" [("X", "x")] "/home/deploy" "/home/deploy/go" "" "deploy"
    "example.com" ":22" "" true (some oneEnvConfig)

/-- The application `web` with the managed directory `pkg/conf`. -/
def filesConfig : Config :=
  Config.mk (App.mk "web" "example.com/web" [File.mk "pkg/conf" false] [] [] "TERM" "" "")
    false

/-- The application `web` with the custom deploy script `deploy.sh`. -/
def customConfig : Config :=
  Config.mk (App.mk "web" "example.com/web" [] [] [] "TERM" "deploy.sh" "") false

/-- The map order that visits the entries as listed. -/
def listedOrder : MapOrder :=
  fun _ l => l

/-- The map order that visits the entries in the reverse of the listing. -/
def reverseOrder : MapOrder :=
  fun _ l => l.reverse

/-- The server has a client, or the connection it would open succeeds. -/
def Server.CanConnect (w : World) (s : Server) : Prop :=
  s.client = true ∨ w.connect s.User (s.Host ++ s.Port) = true

/-- A run of calls to `saveReleaseScript`, one for each server and clock
reading of the list, in order: the scripts returned. -/
def saveReleaseRun (cfg : Config) : ReleaseState → List (Server × Time) → List String
  | _, [] => []
  | g, call :: rest =>
    let r := call.1.saveReleaseScript cfg g call.2
    r.1 :: saveReleaseRun cfg r.2 rest

/-- A world whose remote host lists the files `a/b` and `c` under the
managed-files root of `exampleServer`. -/
def listingWorld : World :=
  World.mk (fun _ => none) (fun _ => none) (fun c => 32 ≤ c.toNat && c.toNat < 127)
    (fun _ _ => true) true
    (fun _ => ("/home/deploy/harp/web/files/a/b\n/home/deploy/harp/web/files/c\n", true))
    (fun _ => true) (Time.mk 2024 1 2 3 4 5)

/-- The local managed files `a/b` and `d`, kept under the directory `.harp`. -/
def exampleLocalFiles : List (String × LocalFile) :=
  [(".harp/files/a/b", LocalFile.mk "1K" "conf/a/b" "a/b"),
   (".harp/files/d", LocalFile.mk "2K" "conf/d" "d")]

/-- A clean relative path, as `find` prints the files below its starting
point: its elements between `/` are not empty and are neither `.` nor `..`. -/
def isCleanRel (p : String) : Bool :=
  (splitOnChar '/' p.data).all fun comp => comp != [] && comp != ['.'] && comp != ['.', '.']

theorem rep_sound {α : Type} (p : Char → Bool) :
    ∀ (s : List Char) (min : Nat) (k : List Char → List Char → Option α) (x : α),
      rep p min s k = some x →
      ∃ m r, s = m ++ r ∧ (∀ c ∈ m, p c = true) ∧ min ≤ m.length ∧ k m r = some x
  | [], min, k, x, h => by
    simp only [rep] at h
    split at h
    · exact ⟨[], [], rfl, by simp, by simp; omega, h⟩
    · cases h
  | c :: cs, min, k, x, h => by
    simp only [rep] at h
    by_cases hp : p c = true
    · rw [if_pos hp] at h
      cases hr : rep p (min - 1) cs (fun m r => k (c :: m) r) with
      | some y =>
        rw [hr] at h
        simp only [Option.some.injEq] at h
        subst h
        obtain ⟨m, r, hs, hm, hl, hk⟩ := rep_sound p cs (min - 1) _ y hr
        refine ⟨c :: m, r, by simp [hs], ?_, by simp; omega, hk⟩
        intro d hd
        rcases List.mem_cons.1 hd with rfl | hd
        · exact hp
        · exact hm d hd
      | none =>
        rw [hr] at h
        simp only at h
        split at h
        · exact ⟨[], c :: cs, rfl, by simp, by simp; omega, h⟩
        · cases h
    · rw [if_neg hp] at h
      split at h
      · exact ⟨[], c :: cs, rfl, by simp, by simp; omega, h⟩
      · cases h

theorem rep_greedy {α : Type} (p : Char → Bool) (r : List Char)
    (hr : ∀ c cs, r = c :: cs → p c = false) :
    ∀ (m : List Char) (min : Nat) (k : List Char → List Char → Option α) (x : α),
      (∀ c ∈ m, p c = true) → min ≤ m.length → k m r = some x →
      rep p min (m ++ r) k = some x
  | [], min, k, x, _, hl, hk => by
    have h0 : min = 0 := by simpa using hl
    subst h0
    cases r with
    | nil => simpa [rep] using hk
    | cons c cs => simp [rep, hr c cs rfl, hk]
  | c :: m, min, k, x, hm, hl, hk => by
    have hc : p c = true := hm c (List.mem_cons_self _ _)
    have ih := rep_greedy p r hr m (min - 1) (fun m r => k (c :: m) r) x
      (fun d hd => hm d (List.mem_cons_of_mem _ hd)) (by simp at hl; omega) hk
    simp [rep, hc, ih]

/-- A match at the start of the input splits it as `user@host:port` followed
by a rest, with a non-empty user free of `@` and a non-empty host free of `:`. -/
theorem urlRegexpAt_sound (s user host port : List Char)
    (h : urlRegexpAt s = some (user, host, port)) :
    ∃ rest, s = user ++ '@' :: (host ++ ':' :: (port ++ rest)) ∧
      user ≠ [] ∧ '@' ∉ user ∧ host ≠ [] ∧ ':' ∉ host := by
  unfold urlRegexpAt at h
  obtain ⟨m1, r1, hs1, hm1, hl1, hk1⟩ := rep_sound _ _ _ _ _ h
  split at hk1
  · rename_i r2
    obtain ⟨m2, r3, hs2, hm2, hl2, hk2⟩ := rep_sound _ _ _ _ _ hk1
    split at hk2
    · rename_i r4
      obtain ⟨m3, r5, hs3, _, _, hk3⟩ := rep_sound _ _ _ _ _ hk2
      simp only [Option.some.injEq, Prod.mk.injEq] at hk3
      obtain ⟨rfl, rfl, rfl⟩ := hk3
      refine ⟨r5, by rw [hs1, hs2, hs3], ?_, ?_, ?_, ?_⟩
      · intro h0; subst h0; simp at hl1
      · intro hmem; simpa using hm1 _ hmem
      · intro h0; subst h0; simp at hl2
      · intro hmem; simpa using hm2 _ hmem
    · cases hk2
  · cases hk1

/-- The pattern matches at the start of `user@host:port` and captures the
three parts, when the user has no `@`, the host no `:` and the port no newline. -/
theorem urlRegexpAt_complete (user host port : List Char)
    (hu : user ≠ []) (hu2 : '@' ∉ user) (hh : host ≠ []) (hh2 : ':' ∉ host)
    (hp : '\n' ∉ port) :
    urlRegexpAt (user ++ '@' :: (host ++ ':' :: port)) = some (user, host, port) := by
  unfold urlRegexpAt
  apply rep_greedy
  · intro c cs hc
    simp only [List.cons.injEq] at hc
    simp [← hc.1]
  · intro c hc
    have : c ≠ '@' := fun h0 => hu2 (h0 ▸ hc)
    simpa using this
  · cases user with
    | nil => exact absurd rfl hu
    | cons a l => simp
  · simp only
    apply rep_greedy
    · intro c cs hc
      simp only [List.cons.injEq] at hc
      simp [← hc.1]
    · intro c hc
      have : c ≠ ':' := fun h0 => hh2 (h0 ▸ hc)
      simpa using this
    · cases host with
      | nil => exact absurd rfl hh
      | cons a l => simp
    · simp only
      have := rep_greedy (α := List Char × List Char × List Char) (fun c => c != '\n') []
        (by intro c cs hc; cases hc) port 0 (fun port _ => some (user, host, port))
        (user, host, port)
        (by
          intro c hc
          have : c ≠ '\n' := fun h0 => hp (h0 ▸ hc)
          simpa using this)
        (Nat.zero_le _) rfl
      simpa using this

/-- A match found anywhere in the input splits the input around it. -/
theorem urlRegexpFind_sound : ∀ (s user host port : List Char),
    urlRegexpFind s = some (user, host, port) →
    ∃ pre rest, s = pre ++ (user ++ '@' :: (host ++ ':' :: (port ++ rest))) ∧
      user ≠ [] ∧ '@' ∉ user ∧ host ≠ [] ∧ ':' ∉ host
  | [], user, host, port, h => by
    simp only [urlRegexpFind] at h
    obtain ⟨rest, hs, hr⟩ := urlRegexpAt_sound _ _ _ _ h
    exact ⟨[], rest, by simp at hs, hr⟩
  | c :: cs, user, host, port, h => by
    simp only [urlRegexpFind] at h
    cases hm : urlRegexpAt (c :: cs) with
    | some m =>
      rw [hm] at h
      simp only [Option.some.injEq] at h
      subst h
      obtain ⟨rest, hs, hr⟩ := urlRegexpAt_sound _ _ _ _ hm
      exact ⟨[], rest, by simpa using hs, hr⟩
    | none =>
      rw [hm] at h
      obtain ⟨pre, rest, hs, hr⟩ := urlRegexpFind_sound cs user host port h
      exact ⟨c :: pre, rest, by simp [hs], hr⟩

/-- A match at the start of the input is the match found. -/
theorem urlRegexpFind_of_at (s : List Char) (m : List Char × List Char × List Char)
    (h : urlRegexpAt s = some m) : urlRegexpFind s = some m := by
  cases s with
  | nil => simpa [urlRegexpFind] using h
  | cons c cs => simp [urlRegexpFind, h]

/-! ## Lemmas on `init` -/

theorem SameIdentity.refl (s : Server) : SameIdentity s s :=
  ⟨rfl, rfl, rfl⟩

theorem SameIdentity.trans {s t u : Server} (h1 : SameIdentity s t) (h2 : SameIdentity t u) :
    SameIdentity s u :=
  ⟨h2.1.trans h1.1, h2.2.1.trans h1.2.1, h2.2.2.trans h1.2.2⟩

theorem Run.ok_bind {α β : Type} (a : α) (f : α → Run β) : (Run.ok a).bind f = f a :=
  rfl

theorem Run.bind_eq_ok {α β : Type} (r : Run α) (f : α → Run β) (b : β)
    (h : r.bind f = Run.ok b) : ∃ a, r = Run.ok a ∧ f a = Run.ok b := by
  cases r with
  | ok a => exact ⟨a, rfl, h⟩
  | exit => cases h
  | unmodelled => cases h

theorem ensureClient_identity (w : World) (s t : Server)
    (h : (if s.client then Run.ok s else s.initClient w) = Run.ok t) :
    SameIdentity s t ∧ t.client = true := by
  by_cases hc : s.client = true
  · rw [if_pos hc] at h
    cases h
    exact ⟨SameIdentity.refl s, hc⟩
  · rw [if_neg hc] at h
    unfold Server.initClient at h
    split at h
    · cases h
      exact ⟨⟨rfl, rfl, rfl⟩, rfl⟩
    · cases h

theorem ensureClient_ok (w : World) (s : Server) (h : s.CanConnect w) :
    ∃ t, (if s.client then Run.ok s else s.initClient w) = Run.ok t := by
  by_cases hc : s.client = true
  · exact ⟨s, by rw [if_pos hc]⟩
  · rcases h with h | h
    · exact absurd h hc
    · exact ⟨_, by rw [if_neg hc]; unfold Server.initClient; rw [if_pos h]⟩

theorem getSession_identity (w : World) (s t : Server) (h : s.getSession w = Run.ok t) :
    SameIdentity s t ∧ t.client = true := by
  unfold Server.getSession at h
  obtain ⟨s1, h1, h2⟩ := Run.bind_eq_ok _ _ _ h
  split at h2
  · cases h2
    exact ensureClient_identity w s _ h1
  · cases h2

theorem getSession_ok (w : World) (s : Server) (h : s.CanConnect w)
    (hn : w.newSession = true) : ∃ t, s.getSession w = Run.ok t := by
  obtain ⟨t, ht⟩ := ensureClient_ok w s h
  exact ⟨t, by unfold Server.getSession; rw [ht]; simp [Run.bind, hn]⟩

theorem probe_identity (w : World) (s t : Server) (cmd out : String)
    (h : s.probe w cmd = Run.ok (t, out)) : SameIdentity s t ∧ t.client = true := by
  unfold Server.probe at h
  obtain ⟨s1, h1, h2⟩ := Run.bind_eq_ok _ _ _ h
  cases h2
  exact getSession_identity w s _ h1

theorem probe_ok (w : World) (s : Server) (cmd : String) (h : s.CanConnect w)
    (hn : w.newSession = true) : ∃ r, s.probe w cmd = Run.ok r := by
  obtain ⟨t, ht⟩ := getSession_ok w s h hn
  exact ⟨_, by unfold Server.probe; rw [ht]; rfl⟩

/-- One optional probe of `initPathes` keeps the identity of the server. -/
theorem probeStep_identity (w : World) (s t : Server) (c : Bool) (cmd : String)
    (upd : Server → String → Server)
    (hupd : ∀ x out, SameIdentity x (upd x out) ∧ (upd x out).client = x.client)
    (h : (if c then (s.probe w cmd).bind fun r => Run.ok (upd r.1 r.2) else Run.ok s)
      = Run.ok t) :
    SameIdentity s t ∧ (s.client = true → t.client = true) := by
  cases c with
  | false =>
    simp only [Bool.false_eq_true, if_false] at h
    cases h
    exact ⟨SameIdentity.refl s, id⟩
  | true =>
    simp only [if_true] at h
    obtain ⟨r, h1, h2⟩ := Run.bind_eq_ok _ _ _ h
    cases h2
    obtain ⟨hi, hc⟩ := probe_identity w s r.1 cmd r.2 h1
    exact ⟨hi.trans (hupd _ _).1, fun _ => by rw [(hupd _ _).2]; exact hc⟩

theorem probeStep_ok (w : World) (s : Server) (c : Bool) (cmd : String)
    (upd : Server → String → Server) (h : s.CanConnect w) (hn : w.newSession = true) :
    ∃ t, (if c then (s.probe w cmd).bind fun r => Run.ok (upd r.1 r.2) else Run.ok s)
      = Run.ok t := by
  cases c with
  | false => exact ⟨s, by simp⟩
  | true =>
    obtain ⟨r, hr⟩ := probe_ok w s cmd h hn
    exact ⟨_, by simp only [if_true]; rw [hr]; rfl⟩

theorem canConnect_of_identity (w : World) (s t : Server) (h : SameIdentity s t)
    (hc : s.client = true → t.client = true) (hs : s.CanConnect w) : t.CanConnect w := by
  rcases hs with hs | hs
  · exact Or.inl (hc hs)
  · right
    rw [h.1, h.2.1, h.2.2]
    exact hs

theorem initPathes_identity (w : World) (s t : Server) (h : s.initPathes w = Run.ok t) :
    SameIdentity s t := by
  unfold Server.initPathes at h
  obtain ⟨s1, h1, h⟩ := Run.bind_eq_ok _ _ _ h
  obtain ⟨s2, h2, h⟩ := Run.bind_eq_ok _ _ _ h
  obtain ⟨s3, h3, h⟩ := Run.bind_eq_ok _ _ _ h
  have e1 := probeStep_identity w s s1 (decide (s.Home = "")) "echo $HOME"
    (fun x out => { x with Home := out }) (fun _ _ => ⟨⟨rfl, rfl, rfl⟩, rfl⟩)
    (by simpa using h1)
  have e2 := probeStep_identity w s1 s2 (decide (s1.Home = "")) "pwd"
    (fun x out => { x with Home := out }) (fun _ _ => ⟨⟨rfl, rfl, rfl⟩, rfl⟩)
    (by simpa using h2)
  have e3 := probeStep_identity w s2 s3 (decide (s2.GoPath = "")) "echo $GOPATH"
    (fun x out => { x with GoPath := out }) (fun _ _ => ⟨⟨rfl, rfl, rfl⟩, rfl⟩)
    (by simpa using h3)
  cases h
  refine (e1.1.trans (e2.1.trans e3.1)).trans ?_
  split
  · exact ⟨rfl, rfl, rfl⟩
  · exact SameIdentity.refl _

theorem initPathes_ok (w : World) (s : Server) (hs : s.CanConnect w)
    (hn : w.newSession = true) : ∃ t, s.initPathes w = Run.ok t := by
  unfold Server.initPathes
  obtain ⟨s1, h1⟩ := probeStep_ok w s (decide (s.Home = "")) "echo $HOME"
    (fun x out => { x with Home := out }) hs hn
  have e1 := probeStep_identity w s s1 (decide (s.Home = "")) "echo $HOME"
    (fun x out => { x with Home := out }) (fun _ _ => ⟨⟨rfl, rfl, rfl⟩, rfl⟩) h1
  have c1 := canConnect_of_identity w s s1 e1.1 e1.2 hs
  obtain ⟨s2, h2⟩ := probeStep_ok w s1 (decide (s1.Home = "")) "pwd"
    (fun x out => { x with Home := out }) c1 hn
  have e2 := probeStep_identity w s1 s2 (decide (s1.Home = "")) "pwd"
    (fun x out => { x with Home := out }) (fun _ _ => ⟨⟨rfl, rfl, rfl⟩, rfl⟩) h2
  have c2 := canConnect_of_identity w s1 s2 e2.1 e2.2 c1
  obtain ⟨s3, h3⟩ := probeStep_ok w s2 (decide (s2.GoPath = "")) "echo $GOPATH"
    (fun x out => { x with GoPath := out }) c2 hn
  simp only [decide_eq_true_eq] at h1 h2 h3
  rw [h1, Run.ok_bind, h2, Run.ok_bind, h3, Run.ok_bind]
  exact ⟨_, rfl⟩

theorem initSetUp_identity (w : World) (cfg : Config) (s t : Server)
    (h : s.initSetUp w cfg = Run.ok t) : SameIdentity s t ∧ t.client = true := by
  unfold Server.initSetUp at h
  obtain ⟨s1, h1, h2⟩ := Run.bind_eq_ok _ _ _ h
  split at h2
  · cases h2
    exact ensureClient_identity w s _ h1
  · cases h2

theorem initSetUp_ok (w : World) (cfg : Config) (s : Server) (hs : s.CanConnect w)
    (hr : w.runCmd ("mkdir -p harp/" ++ cfg.App.Name ++ "/files") = true) :
    ∃ t, s.initSetUp w cfg = Run.ok t := by
  obtain ⟨t, ht⟩ := ensureClient_ok w s hs
  exact ⟨t, by unfold Server.initSetUp; rw [ht]; simp [Run.bind, hr]⟩

/-- When `init` returns, the user and the host are those it was given and
are not empty, and the port is the one given, or `:22` when none was given. -/
theorem init_identity (w : World) (cfg : Config) (s t : Server) (set : String)
    (h : s.init w cfg set = Run.ok t) :
    t.User = s.User ∧ t.Host = s.Host ∧ s.User ≠ "" ∧ s.Host ≠ "" ∧
      t.Port = (if s.Port = "" then ":22" else s.Port) := by
  unfold Server.init at h
  simp only at h
  split at h
  · cases h
  · rename_i hu
    split at h
    · cases h
    · rename_i hh
      obtain ⟨s3, h3, h4⟩ := Run.bind_eq_ok _ _ _ h
      have e3 := (initSetUp_identity w cfg _ _ h3).1
      have e4 := initPathes_identity w _ _ h4
      have e := e3.trans e4
      refine ⟨?_, ?_, hu, hh, ?_⟩
      · rw [e.1]; split <;> rfl
      · rw [e.2.1]; split <;> rfl
      · rw [e.2.2]; split <;> rfl

/-- With a non-empty user and host and a reachable remote host, `init` returns. -/
theorem init_ok (w : World) (cfg : Config) (s : Server) (set : String)
    (hu : s.User ≠ "") (hh : s.Host ≠ "")
    (hw : w.Reachable cfg s.User (s.Host ++ (if s.Port = "" then ":22" else s.Port))) :
    ∃ t, s.init w cfg set = Run.ok t := by
  unfold Server.init
  simp only
  rw [if_neg hu, if_neg hh]
  have hc : Server.CanConnect w
      (if s.Port = "" then
        { { s with Config := some cfg, Set := set } with Port := ":22" }
      else { s with Config := some cfg, Set := set }) := by
    right
    split
    · rename_i hp; simpa [hp] using hw.1
    · rename_i hp; simpa [hp] using hw.1
  obtain ⟨s3, h3⟩ := initSetUp_ok w cfg _ hc hw.2.1
  have e3 := initSetUp_identity w cfg _ _ h3
  obtain ⟨s4, h4⟩ := initPathes_ok w s3 (Or.inl e3.2) hw.2.2
  exact ⟨s4, by rw [h3]; exact h4⟩

/-! ## Address parsing -/

theorem String.data_ne_nil_of_ne_empty (u : String) (h : u ≠ "") : u.data ≠ [] := by
  intro h0
  apply h
  cases u with
  | mk d =>
    simp only at h0
    subst h0
    rfl

theorem String.ne_empty_of_data_ne_nil (d : List Char) (h : d ≠ []) : String.mk d ≠ "" := by
  intro h0
  apply h
  have := congrArg String.data h0
  simpa using this

/-- Two ways of cutting a list at an element `x`, the first at its first
occurrence: the cuts are the same, or the second lies further to the right. -/
theorem cut_at_first {x : Char} : ∀ (a b c d : List Char), x ∉ a →
    a ++ x :: b = c ++ x :: d →
    (c = a ∧ d = b) ∨ ∃ e, c = a ++ x :: e ∧ b = e ++ x :: d
  | [], b, c, d, _, h => by
    cases c with
    | nil =>
      simp only [List.nil_append, List.cons.injEq, true_and] at h
      exact Or.inl ⟨rfl, h.symm⟩
    | cons y c' =>
      simp only [List.nil_append, List.cons_append, List.cons.injEq] at h
      obtain ⟨rfl, hb⟩ := h
      exact Or.inr ⟨c', rfl, hb⟩
  | y :: a', b, c, d, ha, h => by
    have hy : x ≠ y := fun h0 => ha (h0 ▸ List.mem_cons_self _ _)
    have ha' : x ∉ a' := fun h0 => ha (List.mem_cons_of_mem _ h0)
    cases c with
    | nil =>
      simp only [List.cons_append, List.nil_append, List.cons.injEq] at h
      exact absurd h.1.symm hy
    | cons z c' =>
      simp only [List.cons_append, List.cons.injEq] at h
      obtain ⟨rfl, h⟩ := h
      rcases cut_at_first a' b c' d ha' h with ⟨rfl, rfl⟩ | ⟨e, rfl, rfl⟩
      · exact Or.inl ⟨rfl, rfl⟩
      · exact Or.inr ⟨e, rfl, rfl⟩

/-- The pattern has no match in an input that cannot be cut as
`pre user@host:port rest`. -/
theorem urlRegexpFind_eq_none (s : List Char)
    (h : ∀ pre user host port rest,
      s = pre ++ (user ++ '@' :: (host ++ ':' :: (port ++ rest))) →
      user ≠ [] → '@' ∉ user → host ≠ [] → ':' ∉ host → False) :
    urlRegexpFind s = none := by
  cases hf : urlRegexpFind s with
  | none => rfl
  | some m =>
    obtain ⟨user, host, port⟩ := m
    obtain ⟨pre, rest, hs, h1, h2, h3, h4⟩ := urlRegexpFind_sound s user host port hf
    exact (h pre user host port rest hs h1 h2 h3 h4).elim

/-- No match in `user@host` when the user has no `@` and the host no `:`. -/
theorem urlRegexpFind_no_port (u h : List Char) (hu : '@' ∉ u) (hh : ':' ∉ h) :
    urlRegexpFind (u ++ '@' :: h) = none := by
  apply urlRegexpFind_eq_none
  intro pre user host port rest hs _ _ _ _
  rw [← List.append_assoc] at hs
  rcases cut_at_first u h (pre ++ user) _ hu hs with ⟨_, h2⟩ | ⟨e, _, h2⟩
  · exact hh (by rw [← h2]; simp)
  · exact hh (by rw [h2]; simp)

/-- No match in `@host:port` when neither host nor port has an `@`. -/
theorem urlRegexpFind_empty_user (h p : List Char) (hh : '@' ∉ h) (hp : '@' ∉ p) :
    urlRegexpFind ('@' :: (h ++ ':' :: p)) = none := by
  apply urlRegexpFind_eq_none
  intro pre user host port rest hs hu _ _ _
  rw [← List.append_assoc] at hs
  rcases cut_at_first [] _ (pre ++ user) _ (List.not_mem_nil _) hs with ⟨h1, _⟩ | ⟨e, _, h2⟩
  · simp only [List.append_eq_nil] at h1
    exact hu h1.2
  · have hmem : '@' ∈ h ++ ':' :: p := by rw [h2]; simp
    rcases List.mem_append.1 hmem with h0 | h0
    · exact hh h0
    · rcases List.mem_cons.1 h0 with h0 | h0
      · exact absurd h0 (by decide)
      · exact hp h0

/-- No match in `user@:port` when neither user nor port has an `@`. -/
theorem urlRegexpFind_empty_host (u p : List Char) (hu : '@' ∉ u) (hp : '@' ∉ p) :
    urlRegexpFind (u ++ '@' :: ':' :: p) = none := by
  apply urlRegexpFind_eq_none
  intro pre user host port rest hs _ _ hh hh2
  rw [← List.append_assoc] at hs
  rcases cut_at_first u _ (pre ++ user) _ hu hs with ⟨_, h2⟩ | ⟨e, _, h2⟩
  · cases host with
    | nil => exact hh rfl
    | cons y ys =>
      simp only [List.cons_append, List.cons.injEq] at h2
      exact hh2 (by rw [h2.1]; exact List.mem_cons_self _ _)
  · have hmem : '@' ∈ ':' :: p := by rw [h2]; simp
    rcases List.mem_cons.1 hmem with h0 | h0
    · exact absurd h0 (by decide)
    · exact hp h0

/-- Without a match `newOneShotServer` returns nil. -/
theorem newOneShotServer_of_none (w : World) (cfg : Config) (testMode : Bool) (url : String)
    (h : urlRegexpFind url.data = none) :
    newOneShotServer w cfg testMode url = Run.ok none := by
  simp [newOneShotServer, urlRegexpMatchString, h]

/-- C1: for a non-empty user `u` without `@`, a non-empty host `h` without `:`
and a port text `p` without newline, `newOneShotServer` on `u@h:p` returns a
server with `User = u`, `Host = h` and `Port = ":" ++ p`; it does so in test
mode, and outside test mode whenever the remote host of `init` is reachable. -/
theorem newOneShotServer_user_host_port (w : World) (cfg : Config) (testMode : Bool)
    (u h p : String) (hu : u ≠ "") (hu2 : '@' ∉ u.data) (hh : h ≠ "") (hh2 : ':' ∉ h.data)
    (hp : '\n' ∉ p.data)
    (hw : testMode = true ∨ w.Reachable cfg u (h ++ (":" ++ p))) :
    ∃ s, newOneShotServer w cfg testMode (u ++ "@" ++ h ++ ":" ++ p) = Run.ok (some s) ∧
      s.User = u ∧ s.Host = h ∧ s.Port = ":" ++ p := by
  have hdata : (u ++ "@" ++ h ++ ":" ++ p).data = u.data ++ '@' :: (h.data ++ ':' :: p.data) := by
    simp [String.data_append]
  have hfind : urlRegexpFind (u ++ "@" ++ h ++ ":" ++ p).data = some (u.data, h.data, p.data) := by
    rw [hdata]
    exact urlRegexpFind_of_at _ _ (urlRegexpAt_complete _ _ _
      (String.data_ne_nil_of_ne_empty u hu) hu2 (String.data_ne_nil_of_ne_empty h hh) hh2 hp)
  unfold newOneShotServer
  simp only [urlRegexpMatchString, hfind, Option.isSome_some, Bool.not_true, Bool.false_eq_true,
    if_false]
  cases testMode with
  | true => exact ⟨_, rfl, rfl, rfl, rfl⟩
  | false =>
    have hw2 : w.Reachable cfg u (h ++ (":" ++ p)) := by
      rcases hw with hw | hw
      · cases hw
      · exact hw
    have hport : ":" ++ p ≠ "" := by
      intro h0
      have := congrArg String.data h0
      simp [String.data_append] at this
    obtain ⟨t, ht⟩ := init_ok w cfg
      { Server.zero with User := String.mk u.data, Host := String.mk h.data,
                         Port := ":" ++ String.mk p.data } "" hu hh
      (by simp only; rw [if_neg hport]; exact hw2)
    have hid := init_identity w cfg _ t "" ht
    refine ⟨t, ?_, hid.1, hid.2.1, ?_⟩
    · simp only [Bool.not_false, if_true]
      rw [ht]
      rfl
    · rw [hid.2.2.2.2]
      simp only
      rw [if_neg hport]

/-- C1, at the address of the specification: `deploy@10.0.0.1:2222` gives
user `deploy`, host `10.0.0.1` and port `:2222`, `init` included. -/
theorem newOneShotServer_user_host_port_witness :
    ∃ s, newOneShotServer exampleWorld exampleConfig false "deploy@10.0.0.1:2222"
        = Run.ok (some s) ∧
      s.User = "deploy" ∧ s.Host = "10.0.0.1" ∧ s.Port = ":2222" :=
  newOneShotServer_user_host_port exampleWorld exampleConfig false "deploy" "10.0.0.1" "2222"
    (by decide) (by decide) (by decide) (by decide) (by decide)
    (Or.inr ⟨rfl, rfl, rfl⟩)

/-- C2, as stated, fails at the address of the specification: for
`deploy@10.0.0.1`, which has no port part, `newOneShotServer` returns nil, so
no server with port `:22` is returned, in test mode or outside it. -/
theorem newOneShotServer_no_port_counterexample :
    newOneShotServer exampleWorld exampleConfig false "deploy@10.0.0.1" = Run.ok none ∧
    newOneShotServer exampleWorld exampleConfig true "deploy@10.0.0.1" = Run.ok none ∧
    ¬ ∃ s, newOneShotServer exampleWorld exampleConfig false "deploy@10.0.0.1"
        = Run.ok (some s) ∧ s.Port = ":22" := by
  refine ⟨by decide, by decide, ?_⟩
  rintro ⟨s, hs, _⟩
  have h0 : newOneShotServer exampleWorld exampleConfig false "deploy@10.0.0.1"
      = Run.ok none := by decide
  rw [h0] at hs
  cases hs

/-- C2, amended: an address `user@host` without port part (user without `@`,
host without `:`) has no match, and `newOneShotServer` returns nil for it;
the default port `:22` is what `init` gives a server whose `Port` is empty,
when its user and host are not empty and it returns. -/
theorem newOneShotServer_no_port (w : World) (cfg : Config) (testMode : Bool)
    (u h : String) (hu : '@' ∉ u.data) (hh : ':' ∉ h.data) :
    newOneShotServer w cfg testMode (u ++ "@" ++ h) = Run.ok none ∧
    ∀ (s t : Server) (set : String), s.Port = "" → s.init w cfg set = Run.ok t →
      t.User = s.User ∧ t.Host = s.Host ∧ t.Port = ":22" := by
  constructor
  · apply newOneShotServer_of_none
    have hdata : (u ++ "@" ++ h).data = u.data ++ '@' :: h.data := by
      simp [String.data_append]
    rw [hdata]
    exact urlRegexpFind_no_port _ _ hu hh
  · intro s t set hport ht
    have hid := init_identity w cfg s t set ht
    refine ⟨hid.1, hid.2.1, ?_⟩
    rw [hid.2.2.2.2, if_pos hport]

/-- C2, amended, at `deploy@10.0.0.1`, and `init` on a server without port. -/
theorem newOneShotServer_no_port_witness :
    newOneShotServer exampleWorld exampleConfig false ("deploy" ++ "@" ++ "10.0.0.1")
      = Run.ok none ∧
    ∀ (s t : Server) (set : String), s.Port = "" →
      s.init exampleWorld exampleConfig set = Run.ok t →
      t.User = s.User ∧ t.Host = s.Host ∧ t.Port = ":22" :=
  newOneShotServer_no_port exampleWorld exampleConfig false "deploy" "10.0.0.1"
    (by decide) (by decide)

/-- C3: `newOneShotServer` never returns a server whose `User` or `Host` is
empty, and it returns nil for every `u@h:p` in which `u` or `h` is empty and
`u`, `h` and `p` have no `@`. -/
theorem newOneShotServer_rejects_empty :
    (∀ (w : World) (cfg : Config) (testMode : Bool) (url : String) (s : Server),
      newOneShotServer w cfg testMode url = Run.ok (some s) → s.User ≠ "" ∧ s.Host ≠ "") ∧
    (∀ (w : World) (cfg : Config) (testMode : Bool) (u h p : String),
      '@' ∉ u.data → '@' ∉ h.data → '@' ∉ p.data → u = "" ∨ h = "" →
      newOneShotServer w cfg testMode (u ++ "@" ++ h ++ ":" ++ p) = Run.ok none) := by
  constructor
  · intro w cfg testMode url s hs
    unfold newOneShotServer at hs
    split at hs
    · cases hs
    · split at hs
      · cases hs
      · rename_i user host port hf
        obtain ⟨pre, rest, _, hu, _, hh, _⟩ := urlRegexpFind_sound _ _ _ _ hf
        have hu2 := String.ne_empty_of_data_ne_nil user hu
        have hh2 := String.ne_empty_of_data_ne_nil host hh
        cases testMode with
        | true =>
          simp only [Bool.not_true, Bool.false_eq_true, if_false, Run.ok.injEq,
            Option.some.injEq] at hs
          subst hs
          exact ⟨hu2, hh2⟩
        | false =>
          simp only [Bool.not_false, if_true] at hs
          obtain ⟨t, ht, hs⟩ := Run.bind_eq_ok _ _ _ hs
          simp only [Run.ok.injEq, Option.some.injEq] at hs
          subst hs
          have hid := init_identity w cfg _ t "" ht
          exact ⟨by rw [hid.1]; exact hu2, by rw [hid.2.1]; exact hh2⟩
  · intro w cfg testMode u h p hu hh hp hempty
    apply newOneShotServer_of_none
    have hdata : (u ++ "@" ++ h ++ ":" ++ p).data
        = u.data ++ '@' :: (h.data ++ ':' :: p.data) := by
      simp [String.data_append]
    rw [hdata]
    rcases hempty with rfl | rfl
    · exact urlRegexpFind_empty_user _ _ hh hp
    · exact urlRegexpFind_empty_host _ _ hu hp

/-- C3, at the addresses of the specification: `@host:22` and `user@:22` are
rejected, and the server parsed from `deploy@10.0.0.1:2222` has a user and a host. -/
theorem newOneShotServer_rejects_empty_witness :
    newOneShotServer exampleWorld exampleConfig false ("" ++ "@" ++ "host" ++ ":" ++ "22")
      = Run.ok none ∧
    newOneShotServer exampleWorld exampleConfig false ("user" ++ "@" ++ "" ++ ":" ++ "22")
      = Run.ok none ∧
    ∀ s, newOneShotServer exampleWorld exampleConfig true "deploy@10.0.0.1:2222"
      = Run.ok (some s) → s.User ≠ "" ∧ s.Host ≠ "" :=
  ⟨newOneShotServer_rejects_empty.2 exampleWorld exampleConfig false "" "host" "22"
      (by decide) (by decide) (by decide) (Or.inl rfl),
    newOneShotServer_rejects_empty.2 exampleWorld exampleConfig false "user" "" "22"
      (by decide) (by decide) (by decide) (Or.inr rfl),
    fun s => newOneShotServer_rejects_empty.1 exampleWorld exampleConfig true _ s⟩

/-! ## The release timestamp and the save-release script -/

/-- Once the timestamp is allocated, every later call writes that same
timestamp in its script. -/
theorem saveReleaseRun_done (cfg : Config) (hr : cfg.NoRollback = false) :
    ∀ (calls : List (Server × Time)) (g : ReleaseState), g.done = true →
      saveReleaseRun cfg g calls = calls.map fun call =>
        "cd " ++ call.1.Home ++ "/harp/" ++ cfg.App.Name ++ "\n" ++
        "if [[ -f harp-build.info ]]; then\n" ++
        "\tmkdir -p releases/" ++ g.releaseTs ++ "\n" ++
        "\tcp -rf " ++ cfg.App.Name ++
          " harp-build.info files kill.sh restart.sh rollback.sh releases/" ++
          g.releaseTs ++ "\n" ++
        "fi"
  | [], _, _ => rfl
  | call :: rest, g, hg => by
    have hstate : (call.1.saveReleaseScript cfg g call.2).2 = g := by
      simp [Server.saveReleaseScript, hr, ReleaseState.once, hg]
    have hscript : (call.1.saveReleaseScript cfg g call.2).1 =
        "cd " ++ call.1.Home ++ "/harp/" ++ cfg.App.Name ++ "\n" ++
        "if [[ -f harp-build.info ]]; then\n" ++
        "\tmkdir -p releases/" ++ g.releaseTs ++ "\n" ++
        "\tcp -rf " ++ cfg.App.Name ++
          " harp-build.info files kill.sh restart.sh rollback.sh releases/" ++
          g.releaseTs ++ "\n" ++
        "fi" := by
      simp [Server.saveReleaseScript, hr, ReleaseState.once, hg]
    simp only [saveReleaseRun, List.map_cons]
    rw [hstate, hscript, saveReleaseRun_done cfg hr rest g hg]

/-- C4: with rollback enabled, in every sequence of `saveReleaseScript` calls
that starts from the initial state, for any servers and clock readings, every
script carries one and the same release identifier, in `mkdir -p releases/<id>`
and in the destination of `cp`: the timestamp formatted at the first call. -/
theorem saveReleaseScript_one_release_id (cfg : Config) (hr : cfg.NoRollback = false)
    (s0 : Server) (t0 : Time) (rest : List (Server × Time)) :
    saveReleaseRun cfg ReleaseState.initial ((s0, t0) :: rest) =
      ((s0, t0) :: rest).map fun call =>
        "cd " ++ call.1.Home ++ "/harp/" ++ cfg.App.Name ++ "\n" ++
        "if [[ -f harp-build.info ]]; then\n" ++
        "\tmkdir -p releases/" ++ t0.format ++ "\n" ++
        "\tcp -rf " ++ cfg.App.Name ++
          " harp-build.info files kill.sh restart.sh rollback.sh releases/" ++
          t0.format ++ "\n" ++
        "fi" := by
  have hstate : (s0.saveReleaseScript cfg ReleaseState.initial t0).2
      = ReleaseState.mk true t0.format := by
    simp [Server.saveReleaseScript, hr, ReleaseState.once, ReleaseState.initial]
  have hscript : (s0.saveReleaseScript cfg ReleaseState.initial t0).1 =
      "cd " ++ s0.Home ++ "/harp/" ++ cfg.App.Name ++ "\n" ++
      "if [[ -f harp-build.info ]]; then\n" ++
      "\tmkdir -p releases/" ++ t0.format ++ "\n" ++
      "\tcp -rf " ++ cfg.App.Name ++
        " harp-build.info files kill.sh restart.sh rollback.sh releases/" ++
        t0.format ++ "\n" ++
      "fi" := by
    simp [Server.saveReleaseScript, hr, ReleaseState.once, ReleaseState.initial]
  simp only [saveReleaseRun, List.map_cons]
  rw [hstate, hscript, saveReleaseRun_done cfg hr rest (ReleaseState.mk true t0.format) rfl]

/-- C4, on two hosts served at different times: both scripts carry the
timestamp `24-01-02-03:04:05` of the first call. -/
theorem saveReleaseScript_one_release_id_witness :
    saveReleaseRun exampleConfig ReleaseState.initial
        [(exampleServer, Time.mk 2024 1 2 3 4 5),
         ({ exampleServer with Home := "/srv" }, Time.mk 2024 1 2 3 4 59)] =
      [(exampleServer, Time.mk 2024 1 2 3 4 5),
       ({ exampleServer with Home := "/srv" }, Time.mk 2024 1 2 3 4 59)].map fun call =>
        "cd " ++ call.1.Home ++ "/harp/" ++ exampleConfig.App.Name ++ "\n" ++
        "if [[ -f harp-build.info ]]; then\n" ++
        "\tmkdir -p releases/" ++ (Time.mk 2024 1 2 3 4 5).format ++ "\n" ++
        "\tcp -rf " ++ exampleConfig.App.Name ++
          " harp-build.info files kill.sh restart.sh rollback.sh releases/" ++
          (Time.mk 2024 1 2 3 4 5).format ++ "\n" ++
        "fi" :=
  saveReleaseScript_one_release_id exampleConfig rfl exampleServer (Time.mk 2024 1 2 3 4 5)
    [({ exampleServer with Home := "/srv" }, Time.mk 2024 1 2 3 4 59)]

/-! ## Escaping of `$` in `saveScript` -/

theorem escape_cons (c : Char) (cs : List Char) :
    replaceGo ['$'] ['\\', '$'] 0 (c :: cs) =
      if c = '$' then '\\' :: '$' :: replaceGo ['$'] ['\\', '$'] 0 cs
      else c :: replaceGo ['$'] ['\\', '$'] 0 cs := by
  by_cases h : c = '$'
  · subst h
    simp [replaceGo, List.isPrefixOf]
  · have h2 : ¬ '$' = c := fun h0 => h h0.symm
    simp [replaceGo, List.isPrefixOf, h, h2]

/-- The escaped text never starts with `$`. -/
theorem escape_head (l t : List Char) : replaceGo ['$'] ['\\', '$'] 0 l ≠ '$' :: t := by
  cases l with
  | nil => simp [replaceGo]
  | cons c cs =>
    rw [escape_cons]
    split
    · simp
    · rename_i h
      intro h0
      simp only [List.cons.injEq] at h0
      exact h h0.1

/-- In the escaped text every `$` comes right after a backslash. -/
theorem escape_dollar_preceded : ∀ (l pre post : List Char),
    replaceGo ['$'] ['\\', '$'] 0 l = pre ++ '$' :: post → ∃ q, pre = q ++ ['\\']
  | [], pre, post, h => by
    simp [replaceGo] at h
  | c :: cs, pre, post, h => by
    rw [escape_cons] at h
    split at h
    · cases pre with
      | nil => simp at h
      | cons x pre1 =>
        cases pre1 with
        | nil =>
          simp only [List.cons_append, List.nil_append, List.cons.injEq] at h
          exact ⟨[], by simp [← h.1]⟩
        | cons y pre2 =>
          simp only [List.cons_append, List.cons.injEq] at h
          obtain ⟨q, hq⟩ := escape_dollar_preceded cs pre2 post h.2.2
          exact ⟨x :: y :: q, by simp [hq]⟩
    · rename_i hc
      cases pre with
      | nil =>
        simp only [List.nil_append, List.cons.injEq] at h
        exact absurd h.1 hc
      | cons x pre1 =>
        simp only [List.cons_append, List.cons.injEq] at h
        obtain ⟨q, hq⟩ := escape_dollar_preceded cs pre1 post h.2
        exact ⟨x :: q, by simp [hq]⟩

/-- Replacing every `\$` by `$` in the escaped text gives the text back. -/
theorem unescape_escape : ∀ (l : List Char),
    replaceGo ['\\', '$'] ['$'] 0 (replaceGo ['$'] ['\\', '$'] 0 l) = l
  | [] => by simp [replaceGo]
  | c :: cs => by
    rw [escape_cons]
    split
    · rename_i hc
      subst hc
      simp [replaceGo, List.isPrefixOf, unescape_escape cs]
    · rename_i hc
      have hpre : List.isPrefixOf ['\\', '$'] (c :: replaceGo ['$'] ['\\', '$'] 0 cs)
          = false := by
        cases hr : replaceGo ['$'] ['\\', '$'] 0 cs with
        | nil => simp [List.isPrefixOf]
        | cons d ds =>
          have hd : d ≠ '$' := fun h0 => escape_head cs ds (by rw [hr, h0])
          have hd2 : ¬ '$' = d := fun h0 => hd h0.symm
          simp [List.isPrefixOf, hd2]
      simp only [replaceGo, hpre, Bool.false_eq_true, if_false, List.cons.injEq, true_and]
      exact unescape_escape cs

/-- C9: in the command that `saveScript` sends, every `$` comes right after a
backslash, and replacing each `\$` by `$` in it gives back exactly the
unescaped heredoc command (`cat <<EOF > <home>/harp/<app>/<name>.sh`, the
script text, `EOF`, `chmod +x ...`); this is the command `saveScript` runs. -/
theorem saveScript_escapes_dollar (w : World) (cfg : Config) (s : Server)
    (name script : String) :
    (∀ pre post : List Char, (saveScriptCmd cfg s name script).data = pre ++ '$' :: post →
      ∃ q, pre = q ++ ['\\']) ∧
    stringsReplace (saveScriptCmd cfg s name script) "\\$" "$" =
      "cat <<EOF > " ++ s.Home ++ "/harp/" ++ cfg.App.Name ++ "/" ++ name ++ ".sh\n" ++
        script ++ "\n" ++
        "EOF\n" ++
        "chmod +x " ++ s.Home ++ "/harp/" ++ cfg.App.Name ++ "/" ++ name ++ ".sh\n" ∧
    s.saveScript w cfg name script = (s.getSession w).bind fun s1 =>
      if (w.combinedOutput (saveScriptCmd cfg s name script)).2 then Run.ok s1
      else Run.exit := by
  have hcmd : (saveScriptCmd cfg s name script).data =
      replaceGo ['$'] ['\\', '$'] 0 (saveScriptText cfg s name script).data := by
    simp [saveScriptCmd, stringsReplace]
  refine ⟨?_, ?_, rfl⟩
  · intro pre post h
    rw [hcmd] at h
    exact escape_dollar_preceded _ pre post h
  · have h2 : stringsReplace (saveScriptCmd cfg s name script) "\\$" "$"
        = String.mk (replaceGo ['\\', '$'] ['$'] 0 (saveScriptCmd cfg s name script).data) := by
      simp [stringsReplace]
    rw [h2, hcmd, unescape_escape]
    rfl

/-! ## The restart script and the order of map traversal -/

theorem listedOrder_valid : listedOrder.Valid :=
  fun _ l => List.Perm.refl l

theorem reverseOrder_valid : reverseOrder.Valid :=
  fun _ l => List.reverse_perm l

/-- A traversal of a map with at most one entry visits the listing itself. -/
theorem MapOrder.Valid.eq_of_length_le_one {o : MapOrder} (ho : o.Valid) {α : Type}
    (l : List α) (hl : l.length ≤ 1) : o α l = l := by
  have hp := ho α l
  cases l with
  | nil => exact List.perm_nil.1 hp
  | cons a t =>
    cases t with
    | nil => exact List.perm_singleton.1 hp
    | cons b t2 => simp at hl

/-- The text of `restartScript` for given traversals of the two maps. -/
theorem restartScript_eq (w : World) (oApp oHost : MapOrder) (cfg : Config) (s : Server) :
    s.restartScript w oApp oHost cfg =
      (restartScriptTmpl cfg s).bind fun head =>
        Run.ok (head ++
          "cd " ++ s.GoPath ++ "/src/" ++ cfg.App.ImportPath ++ "\n" ++
          "GOPATH=" ++ goQuote w.isPrint s.GoPath ++
          String.join ((oApp _ cfg.App.Envs).map fun kv => " " ++ kv.1 ++ "=\"" ++ kv.2 ++ "\"") ++
          String.join ((oHost _ s.Envs).map fun kv => " " ++ kv.1 ++ "=\"" ++ kv.2 ++ "\"") ++
          " nohup " ++ s.GoPath ++ "/bin/" ++ cfg.App.Name ++ " " ++
          String.intercalate " " cfg.App.Args ++ " >> " ++ s.LogPath cfg ++ " 2>&1 &\n" ++
          "echo $! > " ++ s.PIDPath cfg ++ "\n" ++
          "cd " ++ s.Home) := by
  unfold Server.restartScript
  refine congrArg (Run.bind (restartScriptTmpl cfg s))
    (funext fun head => congrArg Run.ok (String.ext ?_))
  simp only [envAssignments, String.data_append, List.append_assoc]

/-- C6, as stated, fails: with two entries in the application and in the host
environment maps, two calls with the same server and configuration, one
ranging over the maps in listing order and one in the reverse order, return
different texts. -/
theorem restartScript_not_deterministic_counterexample :
    listedOrder.Valid ∧ reverseOrder.Valid ∧
    envServer.restartScript exampleWorld listedOrder listedOrder envConfig ≠
      envServer.restartScript exampleWorld reverseOrder reverseOrder envConfig := by
  refine ⟨listedOrder_valid, reverseOrder_valid, ?_⟩
  decide

/-- C6, amended: two calls to `restartScript` with the same server and
configuration, whatever the order in which each `range` loop visits its map,
return texts that differ at most in the order of the environment assignments:
each text is the rendered template, the `cd` line, `GOPATH=...`, then one
assignment ` k="v"` for every entry of the application map, then one for every
entry of the host map, each map's entries in some order, then the same
`nohup` line tail, `echo $! >` line and final `cd`. When each of the two maps
holds at most one entry the two texts are byte-identical. -/
theorem restartScript_same_up_to_assignment_order (w : World)
    (oApp1 oHost1 oApp2 oHost2 : MapOrder) (cfg : Config) (s : Server)
    (ha1 : oApp1.Valid) (hh1 : oHost1.Valid) (ha2 : oApp2.Valid) (hh2 : oHost2.Valid) :
    ∃ (a1 b1 a2 b2 : List (String × String)),
      a1.Perm cfg.App.Envs ∧ b1.Perm s.Envs ∧ a2.Perm cfg.App.Envs ∧ b2.Perm s.Envs ∧
      s.restartScript w oApp1 oHost1 cfg =
        ((restartScriptTmpl cfg s).bind fun head =>
          Run.ok (head ++
            "cd " ++ s.GoPath ++ "/src/" ++ cfg.App.ImportPath ++ "\n" ++
            "GOPATH=" ++ goQuote w.isPrint s.GoPath ++
            String.join (a1.map fun kv => " " ++ kv.1 ++ "=\"" ++ kv.2 ++ "\"") ++
            String.join (b1.map fun kv => " " ++ kv.1 ++ "=\"" ++ kv.2 ++ "\"") ++
            " nohup " ++ s.GoPath ++ "/bin/" ++ cfg.App.Name ++ " " ++
            String.intercalate " " cfg.App.Args ++ " >> " ++ s.LogPath cfg ++ " 2>&1 &\n" ++
            "echo $! > " ++ s.PIDPath cfg ++ "\n" ++
            "cd " ++ s.Home)) ∧
      s.restartScript w oApp2 oHost2 cfg =
        ((restartScriptTmpl cfg s).bind fun head =>
          Run.ok (head ++
            "cd " ++ s.GoPath ++ "/src/" ++ cfg.App.ImportPath ++ "\n" ++
            "GOPATH=" ++ goQuote w.isPrint s.GoPath ++
            String.join (a2.map fun kv => " " ++ kv.1 ++ "=\"" ++ kv.2 ++ "\"") ++
            String.join (b2.map fun kv => " " ++ kv.1 ++ "=\"" ++ kv.2 ++ "\"") ++
            " nohup " ++ s.GoPath ++ "/bin/" ++ cfg.App.Name ++ " " ++
            String.intercalate " " cfg.App.Args ++ " >> " ++ s.LogPath cfg ++ " 2>&1 &\n" ++
            "echo $! > " ++ s.PIDPath cfg ++ "\n" ++
            "cd " ++ s.Home)) ∧
      (cfg.App.Envs.length ≤ 1 → s.Envs.length ≤ 1 →
        s.restartScript w oApp1 oHost1 cfg = s.restartScript w oApp2 oHost2 cfg) := by
  refine ⟨oApp1 _ cfg.App.Envs, oHost1 _ s.Envs, oApp2 _ cfg.App.Envs, oHost2 _ s.Envs,
    ha1 _ _, hh1 _ _, ha2 _ _, hh2 _ _, restartScript_eq w oApp1 oHost1 cfg s,
    restartScript_eq w oApp2 oHost2 cfg s, ?_⟩
  intro hl1 hl2
  rw [restartScript_eq, restartScript_eq, ha1.eq_of_length_le_one _ hl1,
    ha2.eq_of_length_le_one _ hl1, hh1.eq_of_length_le_one _ hl2,
    hh2.eq_of_length_le_one _ hl2]

/-- C6, amended, on maps with two entries each (`A`, `B` for the application,
`X`, `Y` for the host), visited in listing order by one call and in reverse
order by the other: both texts have the stated shape, with the assignments in
some order of the entries; and on maps with one entry each (`A`; `X`) the two
calls return the same text. -/
theorem restartScript_same_up_to_assignment_order_witness :
    (∃ (a1 b1 a2 b2 : List (String × String)),
      a1.Perm envConfig.App.Envs ∧ b1.Perm envServer.Envs ∧
      a2.Perm envConfig.App.Envs ∧ b2.Perm envServer.Envs ∧
      envServer.restartScript exampleWorld listedOrder listedOrder envConfig =
        ((restartScriptTmpl envConfig envServer).bind fun head =>
          Run.ok (head ++
            "cd " ++ envServer.GoPath ++ "/src/" ++ envConfig.App.ImportPath ++ "\n" ++
            "GOPATH=" ++ goQuote exampleWorld.isPrint envServer.GoPath ++
            String.join (a1.map fun kv => " " ++ kv.1 ++ "=\"" ++ kv.2 ++ "\"") ++
            String.join (b1.map fun kv => " " ++ kv.1 ++ "=\"" ++ kv.2 ++ "\"") ++
            " nohup " ++ envServer.GoPath ++ "/bin/" ++ envConfig.App.Name ++ " " ++
            String.intercalate " " envConfig.App.Args ++ " >> " ++
            envServer.LogPath envConfig ++ " 2>&1 &\n" ++
            "echo $! > " ++ envServer.PIDPath envConfig ++ "\n" ++
            "cd " ++ envServer.Home)) ∧
      envServer.restartScript exampleWorld reverseOrder reverseOrder envConfig =
        ((restartScriptTmpl envConfig envServer).bind fun head =>
          Run.ok (head ++
            "cd " ++ envServer.GoPath ++ "/src/" ++ envConfig.App.ImportPath ++ "\n" ++
            "GOPATH=" ++ goQuote exampleWorld.isPrint envServer.GoPath ++
            String.join (a2.map fun kv => " " ++ kv.1 ++ "=\"" ++ kv.2 ++ "\"") ++
            String.join (b2.map fun kv => " " ++ kv.1 ++ "=\"" ++ kv.2 ++ "\"") ++
            " nohup " ++ envServer.GoPath ++ "/bin/" ++ envConfig.App.Name ++ " " ++
            String.intercalate " " envConfig.App.Args ++ " >> " ++
            envServer.LogPath envConfig ++ " 2>&1 &\n" ++
            "echo $! > " ++ envServer.PIDPath envConfig ++ "\n" ++
            "cd " ++ envServer.Home)) ∧
      (envConfig.App.Envs.length ≤ 1 → envServer.Envs.length ≤ 1 →
        envServer.restartScript exampleWorld listedOrder listedOrder envConfig =
          envServer.restartScript exampleWorld reverseOrder reverseOrder envConfig)) ∧
    oneEnvServer.restartScript exampleWorld listedOrder listedOrder oneEnvConfig =
      oneEnvServer.restartScript exampleWorld reverseOrder reverseOrder oneEnvConfig :=
  ⟨restartScript_same_up_to_assignment_order exampleWorld listedOrder listedOrder
      reverseOrder reverseOrder envConfig envServer listedOrder_valid listedOrder_valid
      reverseOrder_valid reverseOrder_valid,
    (restartScript_same_up_to_assignment_order exampleWorld listedOrder listedOrder
      reverseOrder reverseOrder oneEnvConfig oneEnvServer listedOrder_valid listedOrder_valid
      reverseOrder_valid reverseOrder_valid).elim fun _ h1 => h1.elim fun _ h2 =>
        h2.elim fun _ h3 => h3.elim fun _ h4 =>
          h4.2.2.2.2.2.2 (by decide) (by decide)⟩

/-! ## The sync script and the probe of the search paths -/

/-- After the loop over `GoPaths`, `hasErr` tells whether `os.Stat` failed
for the last search path; with no search path it keeps its initial value. -/
theorem probe_hasErr (w : World) (odst : String) : ∀ (GoPaths : List String) (st : ProbeState),
    (GoPaths.foldl (probeStep w odst) st).hasErr =
      match GoPaths.getLast? with
      | none => st.hasErr
      | some path => (w.stat (filepathJoin [path, "src", odst])).isNone
  | [], st => rfl
  | [path], st => by
    simp only [List.foldl_cons, List.foldl_nil, List.getLast?_singleton, probeStep]
    cases w.stat (filepathJoin [path, "src", odst]) with
    | none => rfl
    | some d => cases d <;> rfl
  | path :: q :: rest, st => by
    rw [List.foldl_cons, probe_hasErr w odst (q :: rest), List.getLast?_cons_cons]
    cases h : (q :: rest).getLast? with
    | none => simp at h
    | some p => rfl

/-- C8, on the code: the loop over `GoPaths` has no `break`, so the last
search path alone decides the failure and every path that holds the entry as
a directory appends a `/`. The directory `pkg/conf` exists under `/go1` and
`/go2` and not under `/go3`. With the search paths `/go1`, `/go3` the entry
is found in the first path and `syncFilesScript` still terminates the
process; with `/go1`, `/go2` source and destination get two `/`; and with no
search path at all no path contains the entry and the script is returned. -/
theorem syncFilesScript_probe_defect :
    exampleWorld.stat (filepathJoin ["/go1", "src", "pkg/conf"]) = some true ∧
    exampleWorld.stat (filepathJoin ["/go2", "src", "pkg/conf"]) = some true ∧
    exampleWorld.stat (filepathJoin ["/go3", "src", "pkg/conf"]) = none ∧
    exampleServer.syncFilesScript exampleWorld filesConfig ["/go1", "/go3"] = Run.exit ∧
    exampleServer.syncFilesScript exampleWorld filesConfig ["/go1", "/go2"] = Run.ok
      ("mkdir -p /home/deploy/go/bin /home/deploy/go/src /home/deploy/go/src/example.com/web\n" ++
       "mkdir -p \"/home/deploy/go/src/pkg/conf\"\n" ++
       "rsync -az  \"/home/deploy/harp/web/files/pkg_conf//\" \"/home/deploy/go/src/pkg/conf//\"\n" ++
       "cp /home/deploy/harp/web/harp-build.info /home/deploy/go/src/example.com/web/\n" ++
       "rsync -az /home/deploy/harp/web/web /home/deploy/go/bin/web") ∧
    exampleServer.syncFilesScript exampleWorld filesConfig [] = Run.ok
      ("mkdir -p /home/deploy/go/bin /home/deploy/go/src /home/deploy/go/src/example.com/web\n" ++
       "mkdir -p \"/home/deploy/go/src/pkg\"\n" ++
       "rsync -az  \"/home/deploy/harp/web/files/pkg_conf\" \"/home/deploy/go/src/pkg/conf\"\n" ++
       "cp /home/deploy/harp/web/harp-build.info /home/deploy/go/src/example.com/web/\n" ++
       "rsync -az /home/deploy/harp/web/web /home/deploy/go/bin/web") := by
  refine ⟨by decide, by decide, by decide, by decide, by decide, by decide⟩

/-! ## The deploy script -/

/-- A text without `{{` is parsed as one text node. -/
theorem tmplParseGo_plain : ∀ (l acc : List Char),
    (∀ pre post, l ≠ pre ++ '{' :: '{' :: post) →
    tmplParseGo false acc l = Run.ok [TmplNode.text (acc.reverse ++ l)]
  | [], acc, _ => by simp [tmplParseGo]
  | [c], acc, _ => by simp [tmplParseGo]
  | c :: d :: cs, acc, h => by
    have hcd : ¬ (c = '{' ∧ d = '{') := by
      rintro ⟨rfl, rfl⟩
      exact h [] cs rfl
    have ih := tmplParseGo_plain (d :: cs) (c :: acc) (by
      intro pre post h0
      exact h (c :: pre) post (by rw [h0]; rfl))
    simp only [tmplParseGo, hcd, if_false]
    rw [ih]
    simp

theorem tmplField_SyncFiles (d : ScriptData) :
    tmplField d ["SyncFiles"] = some d.SyncFiles :=
  rfl

theorem tmplField_SaveRelease (d : ScriptData) :
    tmplField d ["SaveRelease"] = some d.SaveRelease :=
  rfl

theorem tmplField_RestartServer (d : ScriptData) :
    tmplField d ["RestartServer"] = some d.RestartServer :=
  rfl

theorem tmplExecute_nil (d : ScriptData) : tmplExecute d [] = Run.ok "" :=
  rfl

theorem tmplExecute_text (d : ScriptData) (t : List Char) (ns : List TmplNode) :
    tmplExecute d (TmplNode.text t :: ns) =
      (tmplExecute d ns).bind fun out => Run.ok (String.mk t ++ out) :=
  rfl

theorem tmplExecute_field (d : ScriptData) (chain : List String) (v : String)
    (ns : List TmplNode) (h : tmplField d chain = some v) :
    tmplExecute d (TmplNode.field chain :: ns) =
      (tmplExecute d ns).bind fun out => Run.ok (v ++ out) := by
  rw [tmplExecute, h]

/-- C10, as stated, fails: the custom deploy script `deploy.sh` holds the one
line `echo deploying`; `retrieveDeployScript` returns that text as it is, and
no line of it is `set -e`. -/
theorem retrieveDeployScript_custom_counterexample :
    exampleWorld.readFile customConfig.App.DeployScript = some "echo deploying\n" ∧
    exampleServer.retrieveDeployScript exampleWorld listedOrder listedOrder customConfig []
        ReleaseState.initial
      = Run.ok ("echo deploying\n", ReleaseState.mk true "24-01-02-03:04:05") ∧
    "set -e" ∉ splitLines "echo deploying\n" := by
  refine ⟨by decide, by decide, by decide⟩

/-- C10, amended: `retrieveDeployScript` renders the configured template and
adds nothing to it. With the default template the text returned is the line
`set -e` followed by the sync, save-release and restart texts, one per line;
a custom script without `{{` is returned exactly as it is written in the
file, so `set -e` is in force only when the custom script has it. -/
theorem retrieveDeployScript_renders_template (w : World) (oApp oHost : MapOrder)
    (cfg : Config)
    (GoPaths : List String) (g : ReleaseState) (s : Server) :
    (cfg.App.DeployScript = "" →
      s.retrieveDeployScript w oApp oHost cfg GoPaths g =
        (s.scriptData w oApp oHost cfg GoPaths g).bind fun d =>
          Run.ok ("set -e\n" ++ d.1.SyncFiles ++ "\n" ++ d.1.SaveRelease ++ "\n" ++
            d.1.RestartServer ++ "\n", d.2)) ∧
    (∀ cont : String, cfg.App.DeployScript ≠ "" →
      w.readFile cfg.App.DeployScript = some cont →
      (∀ pre post, cont.data ≠ pre ++ '{' :: '{' :: post) →
      s.retrieveDeployScript w oApp oHost cfg GoPaths g =
        (s.scriptData w oApp oHost cfg GoPaths g).bind fun d => Run.ok (cont, d.2)) := by
  constructor
  · intro h
    have hp : tmplParse defaultDeployScript = Run.ok
        [TmplNode.text "set -e\n".data, TmplNode.field ["SyncFiles"],
         TmplNode.text "\n".data, TmplNode.field ["SaveRelease"],
         TmplNode.text "\n".data, TmplNode.field ["RestartServer"],
         TmplNode.text "\n".data] := by decide
    unfold Server.retrieveDeployScript
    simp only [h, ne_eq, not_true_eq_false, if_false, Run.ok_bind, hp]
    congr 1
    funext d
    rw [tmplExecute_text, tmplExecute_field _ _ _ _ (tmplField_SyncFiles d.1),
      tmplExecute_text, tmplExecute_field _ _ _ _ (tmplField_SaveRelease d.1),
      tmplExecute_text, tmplExecute_field _ _ _ _ (tmplField_RestartServer d.1),
      tmplExecute_text, tmplExecute_nil]
    simp only [Run.ok_bind]
    congr 2
    apply String.ext
    simp [String.data_append]
  · intro cont h hr hplain
    have hp : tmplParse cont = Run.ok [TmplNode.text cont.data] := by
      unfold tmplParse
      rw [tmplParseGo_plain cont.data [] hplain]
      simp
    unfold Server.retrieveDeployScript
    simp only [h, ne_eq, not_false_eq_true, if_true, hr, Run.ok_bind, hp]
    congr 1
    funext d
    rw [tmplExecute_text, tmplExecute_nil]
    simp only [Run.ok_bind]
    congr 2
    apply String.ext
    simp [String.data_append]

/-- C10, amended, on the example: the default template gives a text that
starts with `set -e`, and the custom script `deploy.sh` is returned as written. -/
theorem retrieveDeployScript_renders_template_witness :
    exampleServer.retrieveDeployScript exampleWorld listedOrder listedOrder exampleConfig []
        ReleaseState.initial =
      (exampleServer.scriptData exampleWorld listedOrder listedOrder exampleConfig []
        ReleaseState.initial).bind (fun d =>
          Run.ok ("set -e\n" ++ d.1.SyncFiles ++ "\n" ++ d.1.SaveRelease ++ "\n" ++
            d.1.RestartServer ++ "\n", d.2)) ∧
    exampleServer.retrieveDeployScript exampleWorld listedOrder listedOrder customConfig []
        ReleaseState.initial =
      (exampleServer.scriptData exampleWorld listedOrder listedOrder customConfig []
        ReleaseState.initial).bind (fun d => Run.ok ("echo deploying\n", d.2)) :=
  ⟨(retrieveDeployScript_renders_template exampleWorld listedOrder listedOrder exampleConfig []
      ReleaseState.initial exampleServer).1 rfl,
    (retrieveDeployScript_renders_template exampleWorld listedOrder listedOrder customConfig []
      ReleaseState.initial exampleServer).2 "echo deploying\n" (by decide) rfl (by
        intro pre post h
        have hmem : '{' ∈ "echo deploying\n".data := by rw [h]; simp
        revert hmem
        decide)⟩

/-! ## `filepath.Join` on clean relative paths -/

theorem splitOnChar_ne_nil (sep : Char) : ∀ l : List Char, splitOnChar sep l ≠ []
  | [] => by simp [splitOnChar]
  | c :: cs => by
    unfold splitOnChar
    split
    · simp
    · split <;> simp

theorem splitOnChar_append (sep : Char) (b : List Char) : ∀ a : List Char,
    splitOnChar sep (a ++ sep :: b) = splitOnChar sep a ++ splitOnChar sep b
  | [] => by simp [splitOnChar]
  | c :: cs => by
    have ih := splitOnChar_append sep b cs
    by_cases hc : c = sep
    · simp [splitOnChar, hc, ih]
    · cases hs : splitOnChar sep cs with
      | nil => exact absurd hs (splitOnChar_ne_nil sep cs)
      | cons x xs =>
        rw [List.cons_append, splitOnChar, if_neg hc, ih, hs, splitOnChar, if_neg hc, hs]
        rfl

theorem splitOnChar_no_sep (sep : Char) : ∀ l : List Char, sep ∉ l → splitOnChar sep l = [l]
  | [], _ => by simp [splitOnChar]
  | c :: cs, h => by
    have hc : c ≠ sep := fun h0 => h (h0 ▸ List.mem_cons_self _ _)
    have ih := splitOnChar_no_sep sep cs (fun h0 => h (List.mem_cons_of_mem _ h0))
    simp [splitOnChar, hc, ih]

theorem splitOnChar_sep_free (sep : Char) : ∀ (l : List Char), ∀ comp ∈ splitOnChar sep l,
    sep ∉ comp
  | [], comp, h => by
    simp only [splitOnChar, List.mem_singleton] at h
    subst h
    simp
  | c :: cs, comp, h => by
    have ih := splitOnChar_sep_free sep cs
    unfold splitOnChar at h
    split at h
    · rcases List.mem_cons.1 h with h | h
      · subst h; simp
      · exact ih comp h
    · rename_i hc
      split at h
      · rename_i hs
        exact absurd hs (splitOnChar_ne_nil sep cs)
      · rename_i x xs hs
        rcases List.mem_cons.1 h with h | h
        · subst h
          have hx := ih x (by rw [hs]; exact List.mem_cons_self _ _)
          intro hmem
          rcases List.mem_cons.1 hmem with h0 | h0
          · exact hc h0.symm
          · exact hx h0
        · exact ih comp (by rw [hs]; exact List.mem_cons_of_mem _ h)

theorem intercalate_singleton (sep a : List Char) : List.intercalate sep [a] = a := by
  simp [List.intercalate]

theorem intercalate_cons_cons (sep a b : List Char) (l : List (List Char)) :
    List.intercalate sep (a :: b :: l) = a ++ (sep ++ List.intercalate sep (b :: l)) := by
  simp [List.intercalate]

theorem intercalate_splitOnChar (sep : Char) : ∀ l : List Char,
    List.intercalate [sep] (splitOnChar sep l) = l
  | [] => by simp [splitOnChar, List.intercalate]
  | c :: cs => by
    have ih := intercalate_splitOnChar sep cs
    cases hs : splitOnChar sep cs with
    | nil => exact absurd hs (splitOnChar_ne_nil sep cs)
    | cons x xs =>
      rw [hs] at ih
      by_cases hc : c = sep
      · simp only [splitOnChar, hc, if_true, hs]
        rw [intercalate_cons_cons, ih]
        simp
      · simp only [splitOnChar, hc, if_false, hs]
        cases xs with
        | nil =>
          rw [intercalate_singleton] at ih ⊢
          rw [ih]
        | cons y ys =>
          rw [intercalate_cons_cons] at ih ⊢
          rw [← ih]
          simp

theorem splitOnChar_intercalate (sep : Char) : ∀ comps : List (List Char), comps ≠ [] →
    (∀ comp ∈ comps, sep ∉ comp) →
    splitOnChar sep (List.intercalate [sep] comps) = comps
  | [], h, _ => absurd rfl h
  | [a], _, hfree => by
    rw [intercalate_singleton]
    exact splitOnChar_no_sep sep a (hfree a (List.mem_cons_self _ _))
  | a :: b :: l, _, hfree => by
    rw [intercalate_cons_cons]
    simp only [List.singleton_append]
    rw [splitOnChar_append, splitOnChar_no_sep sep a (hfree a (List.mem_cons_self _ _)),
      splitOnChar_intercalate sep (b :: l) (by simp)
        (fun comp h => hfree comp (List.mem_cons_of_mem _ h))]
    rfl

/-- The elements kept by `filepath.Clean` have no `/` when the elements read
have none. -/
theorem cleanStep_sep_free (rooted : Bool) (st : List (List Char)) (comp : List Char)
    (hst : ∀ c ∈ st, '/' ∉ c) (hcomp : '/' ∉ comp) :
    ∀ c ∈ cleanStep rooted st comp, '/' ∉ c := by
  unfold cleanStep
  split
  · exact hst
  · split
    · split
      · rename_i top below
        split
        · intro c hc
          rcases List.mem_cons.1 hc with h | h
          · subst h; exact hcomp
          · exact hst c h
        · intro c hc
          exact hst c (List.mem_cons_of_mem _ hc)
      · split
        · intro c hc; cases hc
        · intro c hc
          rcases List.mem_cons.1 hc with h | h
          · subst h; exact hcomp
          · cases h
    · intro c hc
      rcases List.mem_cons.1 hc with h | h
      · subst h; exact hcomp
      · exact hst c h

theorem foldl_cleanStep_sep_free (rooted : Bool) : ∀ (comps st : List (List Char)),
    (∀ c ∈ st, '/' ∉ c) → (∀ c ∈ comps, '/' ∉ c) →
    ∀ c ∈ comps.foldl (cleanStep rooted) st, '/' ∉ c
  | [], st, hst, _ => by simpa using hst
  | comp :: comps, st, hst, hcomps => by
    simp only [List.foldl_cons]
    exact foldl_cleanStep_sep_free rooted comps _
      (cleanStep_sep_free rooted st comp hst (hcomps comp (List.mem_cons_self _ _)))
      (fun c h => hcomps c (List.mem_cons_of_mem _ h))

/-- The elements of a clean relative path are all kept by `filepath.Clean`. -/
theorem foldl_cleanStep_real (rooted : Bool) : ∀ (comps st : List (List Char)),
    (∀ c ∈ comps, c ≠ [] ∧ c ≠ ['.'] ∧ c ≠ ['.', '.']) →
    comps.foldl (cleanStep rooted) st = comps.reverse ++ st
  | [], st, _ => by simp
  | comp :: comps, st, h => by
    have hc := h comp (List.mem_cons_self _ _)
    have hstep : cleanStep rooted st comp = comp :: st := by
      simp [cleanStep, hc.1, hc.2.1, hc.2.2]
    simp only [List.foldl_cons, hstep]
    rw [foldl_cleanStep_real rooted comps (comp :: st)
      (fun c hmem => h c (List.mem_cons_of_mem _ hmem))]
    simp

theorem isCleanRel_iff (p : String) : isCleanRel p = true ↔
    ∀ c ∈ splitOnChar '/' p.data, c ≠ [] ∧ c ≠ ['.'] ∧ c ≠ ['.', '.'] := by
  simp [isCleanRel, List.all_eq_true, and_assoc]

/-- The value of `filepath.Clean` on `P/x` for a clean relative path `x`: the
elements that `P` leaves, followed by the elements of `x`. -/
theorem filepathClean_append_cleanRel (P : List Char) (x : String) (hP : P ≠ [])
    (hx : isCleanRel x = true) :
    filepathClean (String.mk (P ++ '/' :: x.data)) =
      String.mk ((if (P.head? == some '/') = true then ['/'] else []) ++
        List.intercalate ['/']
          (((splitOnChar '/' P).foldl (cleanStep (P.head? == some '/')) []).reverse ++
            splitOnChar '/' x.data)) := by
  have hx2 := (isCleanRel_iff x).1 hx
  have hhead : (P ++ '/' :: x.data).head? = P.head? := by
    cases P with
    | nil => exact absurd rfl hP
    | cons c cs => rfl
  have hne : P ++ '/' :: x.data ≠ [] := by simp
  have hfree : ∀ c ∈ ((splitOnChar '/' P).foldl (cleanStep (P.head? == some '/')) []).reverse ++
      splitOnChar '/' x.data, '/' ∉ c := by
    intro c hc
    rcases List.mem_append.1 hc with h | h
    · exact foldl_cleanStep_sep_free _ _ [] (by simp) (splitOnChar_sep_free '/' P) c
        (List.mem_reverse.1 h)
    · exact splitOnChar_sep_free '/' x.data c h
  have hout : List.intercalate ['/']
      (((splitOnChar '/' P).foldl (cleanStep (P.head? == some '/')) []).reverse ++
        splitOnChar '/' x.data) ≠ [] := by
    intro h0
    have hsplit := splitOnChar_intercalate '/' _
      (by simp [splitOnChar_ne_nil]) hfree
    rw [h0] at hsplit
    have hmem : ([] : List Char) ∈ splitOnChar '/' x.data := by
      cases hs : splitOnChar '/' x.data with
      | nil => exact absurd hs (splitOnChar_ne_nil _ _)
      | cons y ys =>
        rw [hs] at hsplit
        simp only [splitOnChar] at hsplit
        have hlen := congrArg List.length hsplit
        simp only [List.length_singleton, List.length_append, List.length_reverse,
          List.length_cons, List.length_nil] at hlen
        have hys : ys = [] := List.length_eq_zero.1 (by omega)
        have hA : ((splitOnChar '/' P).foldl (cleanStep (P.head? == some '/')) []).reverse
            = [] := List.length_eq_zero.1 (by simp only [List.length_reverse]; omega)
        rw [hA, hys] at hsplit
        simp only [List.nil_append, List.cons.injEq, and_true] at hsplit
        rw [← hsplit]
        exact List.mem_cons_self _ _
    exact (hx2 [] hmem).1 rfl
  unfold filepathClean
  simp only [hne, if_false, hhead, splitOnChar_append, List.foldl_append]
  rw [foldl_cleanStep_real _ _ _ hx2]
  simp only [List.reverse_append, List.reverse_reverse]
  rw [if_neg]
  intro h0
  simp only [List.append_eq_nil] at h0
  exact hout h0.2

/-- The path that `filepath.Join(tmpDir, "files", x)` cleans. -/
theorem filepathJoin_files (tmpDir x : String) :
    filepathJoin [tmpDir, "files", x] =
      filepathClean (String.mk
        ((if tmpDir = "" then "files".data else tmpDir.data ++ '/' :: "files".data) ++
          '/' :: x.data)) := by
  by_cases ht : tmpDir = ""
  · subst ht
    have hd : List.dropWhile (fun e => e == "") ["", "files", x] = ["files", x] := by
      simp [List.dropWhile]
    simp only [filepathJoin, hd, if_true]
    congr 1
  · have hb : (tmpDir == "") = false := by simpa using ht
    have hd : List.dropWhile (fun e => e == "") [tmpDir, "files", x] = [tmpDir, "files", x] := by
      simp [List.dropWhile, hb]
    simp only [filepathJoin, hd, ht, if_false]
    congr 1
    apply String.ext
    simp [String.intercalate, String.intercalate.go, String.data_append]

/-- Two clean relative paths with the same local path under
`tmpDir/files` are the same path. -/
theorem filepathJoin_files_injective (tmpDir a b : String) (ha : isCleanRel a = true)
    (hb : isCleanRel b = true)
    (h : filepathJoin [tmpDir, "files", a] = filepathJoin [tmpDir, "files", b]) : a = b := by
  rw [filepathJoin_files, filepathJoin_files] at h
  generalize hP : (if tmpDir = "" then "files".data else tmpDir.data ++ '/' :: "files".data)
    = P at h
  have hPne : P ≠ [] := by
    rw [← hP]
    split
    · decide
    · simp
  rw [filepathClean_append_cleanRel P a hPne ha, filepathClean_append_cleanRel P b hPne hb] at h
  have h1 := List.append_cancel_left (congrArg String.data h)
  have hfree : ∀ x : String, ∀ c ∈
      ((splitOnChar '/' P).foldl (cleanStep (P.head? == some '/')) []).reverse ++
        splitOnChar '/' x.data, '/' ∉ c := by
    intro x c hc
    rcases List.mem_append.1 hc with h | h
    · exact foldl_cleanStep_sep_free _ _ [] (by simp) (splitOnChar_sep_free '/' P) c
        (List.mem_reverse.1 h)
    · exact splitOnChar_sep_free '/' x.data c h
  have h2 := congrArg (splitOnChar '/') h1
  rw [splitOnChar_intercalate '/' _ (by simp [splitOnChar_ne_nil]) (hfree a),
    splitOnChar_intercalate '/' _ (by simp [splitOnChar_ne_nil]) (hfree b)] at h2
  have h3 := List.append_cancel_left h2
  have h4 : a.data = b.data := by
    rw [← intercalate_splitOnChar '/' a.data, ← intercalate_splitOnChar '/' b.data, h3]
  exact String.ext h4

/-! ## Reconciling the managed files -/

/-- Splitting a text made of newline-free lines, each ended by a newline. -/
theorem splitOnChar_ended_lines : ∀ (lines : List (List Char)), (∀ l ∈ lines, '\n' ∉ l) →
    splitOnChar '\n' ((lines.map fun l => l ++ ['\n']).flatten) = lines ++ [[]]
  | [], _ => by simp [splitOnChar]
  | l :: ls, h => by
    have ih := splitOnChar_ended_lines ls (fun x hx => h x (List.mem_cons_of_mem _ hx))
    simp only [List.map_cons, List.flatten_cons, List.append_assoc, List.singleton_append]
    rw [splitOnChar_append, splitOnChar_no_sep '\n' l (h l (List.mem_cons_self _ _)), ih]
    rfl

/-- The set `serverFiles` built from a listing that prints, one per line,
the paths `remote` below the root: these paths, each kept once. -/
theorem serverFilesOf_listing (root : String) (remote : List String)
    (hne : root ≠ "") (hroot : '\n' ∉ root.data) (hremote : ∀ p ∈ remote, '\n' ∉ p.data) :
    serverFilesOf root (String.join (remote.map fun p => root ++ p ++ "\n")) =
      remote.dedup := by
  have hdata : (String.join (remote.map fun p => root ++ p ++ "\n")).data =
      ((remote.map fun p => root.data ++ p.data).map fun l => l ++ ['\n']).flatten := by
    rw [String.data_join]
    simp [List.map_map, Function.comp_def, String.data_append]
  have hsplit : splitLines (String.join (remote.map fun p => root ++ p ++ "\n")) =
      remote.map (fun p => root ++ p) ++ [""] := by
    simp only [splitLines, hdata]
    rw [splitOnChar_ended_lines]
    · simp only [List.map_append, List.map_map, List.map_cons, List.map_nil]
      congr 1
    · intro l hl
      obtain ⟨p, hp, rfl⟩ := List.mem_map.1 hl
      simp [hroot, hremote p hp]
  have hrootd : root.data ≠ [] := String.data_ne_nil_of_ne_empty root hne
  have hfilter : ((remote.map (fun p => root ++ p) ++ [""]).filter fun f => decide (f ≠ ""))
      = remote.map (fun p => root ++ p) := by
    rw [List.filter_append, List.filter_eq_self.2, List.filter_cons_of_neg (by simp)]
    · simp
    · intro f hf
      obtain ⟨p, _, rfl⟩ := List.mem_map.1 hf
      have : root ++ p ≠ "" := by
        intro h0
        have := congrArg String.data h0
        simp only [String.data_append, List.append_eq_nil] at this
        exact hrootd this.1
      simpa using this
  have htrim : ∀ p : String, trimPrefix (root ++ p) root = p := by
    intro p
    have hpre : root.data.isPrefixOf (root ++ p).data = true := by
      rw [List.isPrefixOf_iff_prefix, String.data_append]
      exact List.prefix_append _ _
    rw [String.data_append] at hpre
    simp only [trimPrefix, String.data_append, hpre, if_true, List.drop_left]
  simp only [serverFilesOf, hsplit, hfilter, List.map_map, Function.comp_def, htrim,
    List.map_id']

/-- The command of `diffFiles`, written out. -/
theorem findCmd_eq (cfg : Config) (s : Server) :
    s.findCmd cfg =
      "if [[ -d \"" ++ s.Home ++ "/harp/" ++ cfg.App.Name ++ "/\" ]]; then\n" ++
      "\t\tfind " ++ s.Home ++ "/harp/" ++ cfg.App.Name ++ "/files/ -type f\n" ++
      "\tfi" := by
  apply String.ext
  simp [Server.findCmd, Server.fileRoot, String.data_append]

/-- The result of `diffFiles` when the session opens and the remote command
succeeds. -/
theorem diffFiles_eq (w : World) (o : MapOrder) (cfg : Config) (tmpDir : String)
    (localFiles : List (String × LocalFile)) (s : Server)
    (hc : s.CanConnect w) (hn : w.newSession = true)
    (hrun : (w.combinedOutput (s.findCmd cfg)).2 = true) :
    s.diffFiles w o cfg tmpDir localFiles = Run.ok (String.join
      ((((o _ localFiles).filter fun kv =>
          kv.2.relDst ∉ serverFilesOf (s.fileRoot cfg) (w.combinedOutput (s.findCmd cfg)).1).map
          fun kv => addedLine kv.2) ++
        ((o _ (serverFilesOf (s.fileRoot cfg) (w.combinedOutput (s.findCmd cfg)).1)).filter
          fun sfile => filepathJoin [tmpDir, "files", sfile] ∉ localFiles.map Prod.fst).map
          removedLine)) := by
  obtain ⟨t, ht⟩ := getSession_ok w s hc hn
  unfold Server.diffFiles
  rw [ht, Run.ok_bind]
  simp only [hrun, Bool.not_true, Bool.false_eq_true, if_false]

/-- C5: let the session open and the remote `find` command print, one per
line, the files `remote` below the managed-files root (clean relative paths,
each printed after the root). Then `diffFiles` returns the lines
`+ <size> <src>` of the local files whose relative path is not in `remote`,
followed by the lines `- <path>` of the paths of `remote` that are not the
relative path of a local file: one line for each such entry and no other
line, in the order of the map traversals; and when the local and the remote
paths are the same set the text is empty. The map `localFiles` is declared
outside `server.go`: each entry is taken to be keyed by the local path of its
file, `filepath.Join(tmpDir, "files", relDst)`, with a clean relative path. -/
theorem diffFiles_symmetric_difference (w : World) (o : MapOrder) (cfg : Config)
    (tmpDir : String) (localFiles : List (String × LocalFile)) (s : Server)
    (remote : List String)
    (ho : o.Valid) (hc : s.CanConnect w) (hn : w.newSession = true)
    (hhome : '\n' ∉ s.Home.data) (hname : '\n' ∉ cfg.App.Name.data)
    (hlisting : w.combinedOutput
        ("if [[ -d \"" ++ s.Home ++ "/harp/" ++ cfg.App.Name ++ "/\" ]]; then\n" ++
         "\t\tfind " ++ s.Home ++ "/harp/" ++ cfg.App.Name ++ "/files/ -type f\n" ++
         "\tfi") =
      (String.join (remote.map fun p =>
        s.Home ++ "/harp/" ++ cfg.App.Name ++ "/files/" ++ p ++ "\n"), true))
    (hremote : ∀ p ∈ remote, isCleanRel p = true ∧ '\n' ∉ p.data)
    (hkeys : ∀ kv ∈ localFiles, kv.1 = filepathJoin [tmpDir, "files", kv.2.relDst])
    (hlocal : ∀ kv ∈ localFiles, isCleanRel kv.2.relDst = true) :
    ∃ (added : List LocalFile) (removed : List String),
      s.diffFiles w o cfg tmpDir localFiles =
        Run.ok (String.join
          (added.map (fun f => "+ " ++ f.size ++ " " ++ f.src ++ "\n") ++
            removed.map (fun p => "- " ++ p ++ "\n"))) ∧
      added.Perm ((localFiles.map Prod.snd).filter fun f => f.relDst ∉ remote) ∧
      removed.Perm (remote.dedup.filter fun p => p ∉ localFiles.map fun kv => kv.2.relDst) ∧
      ((∀ p, p ∈ (localFiles.map fun kv => kv.2.relDst) ↔ p ∈ remote) →
        s.diffFiles w o cfg tmpDir localFiles = Run.ok "") := by
  rw [← findCmd_eq] at hlisting
  have hrun : (w.combinedOutput (s.findCmd cfg)).2 = true := by rw [hlisting]
  have hroot : s.fileRoot cfg = s.Home ++ "/harp/" ++ cfg.App.Name ++ "/files/" := rfl
  have hR : serverFilesOf (s.fileRoot cfg) (w.combinedOutput (s.findCmd cfg)).1
      = remote.dedup := by
    rw [hlisting, hroot]
    apply serverFilesOf_listing _ remote
    · intro h0
      have := congrArg String.data h0
      simp [String.data_append] at this
    · simp [String.data_append, hhome, hname]
    · exact fun p hp => (hremote p hp).2
  have heq := diffFiles_eq w o cfg tmpDir localFiles s hc hn hrun
  rw [hR] at heq
  have hmem : ∀ p ∈ remote, (filepathJoin [tmpDir, "files", p] ∈ localFiles.map Prod.fst ↔
      p ∈ localFiles.map fun kv => kv.2.relDst) := by
    intro p hp
    constructor
    · intro h
      obtain ⟨kv, hkv, hk⟩ := List.mem_map.1 h
      have h2 := filepathJoin_files_injective tmpDir p kv.2.relDst (hremote p hp).1
        (hlocal kv hkv) (by rw [← hk, hkeys kv hkv])
      exact List.mem_map.2 ⟨kv, hkv, h2.symm⟩
    · intro h
      obtain ⟨kv, hkv, hk⟩ := List.mem_map.1 h
      exact List.mem_map.2 ⟨kv, hkv, by rw [hkeys kv hkv, hk]⟩
  have hfilter : ((o _ remote.dedup).filter fun sfile =>
        decide (filepathJoin [tmpDir, "files", sfile] ∉ localFiles.map Prod.fst)) =
      (o _ remote.dedup).filter fun p => decide (p ∉ localFiles.map fun kv => kv.2.relDst) := by
    apply List.filter_congr
    intro p hp
    have hp2 : p ∈ remote := List.mem_dedup.1 ((ho _ _).subset hp)
    simp only [decide_not, Bool.not_eq_eq_eq_not, Bool.not_not, decide_eq_decide]
    exact hmem p hp2
  have hfilter2 : ((o _ localFiles).filter fun kv => decide (kv.2.relDst ∉ remote.dedup)) =
      (o _ localFiles).filter fun kv => decide (kv.2.relDst ∉ remote) := by
    apply List.filter_congr
    intro kv _
    simp only [List.mem_dedup]
  rw [hfilter, hfilter2] at heq
  refine ⟨((o _ localFiles).filter fun kv => kv.2.relDst ∉ remote).map Prod.snd,
    (o _ remote.dedup).filter fun p => p ∉ localFiles.map fun kv => kv.2.relDst,
    ?_, ?_, ?_, ?_⟩
  · rw [heq, List.map_map]
    rfl
  · have h1 : (localFiles.map Prod.snd).filter (fun f => decide (f.relDst ∉ remote)) =
        (localFiles.filter fun kv => decide (kv.2.relDst ∉ remote)).map Prod.snd := by
      rw [List.filter_map]
      rfl
    rw [h1]
    exact ((ho _ localFiles).filter _).map _
  · exact (ho _ _).filter _
  · intro hsame
    rw [heq]
    have e1 : ((o _ localFiles).filter fun kv => decide (kv.2.relDst ∉ remote)) = [] := by
      rw [List.filter_eq_nil_iff]
      intro kv hkv
      have hkv2 : kv ∈ localFiles := (ho _ localFiles).subset hkv
      have : kv.2.relDst ∈ remote := (hsame _).1 (List.mem_map.2 ⟨kv, hkv2, rfl⟩)
      simpa using this
    have e2 : ((o _ remote.dedup).filter
        fun p => decide (p ∉ localFiles.map fun kv => kv.2.relDst)) = [] := by
      rw [List.filter_eq_nil_iff]
      intro p hp
      have hp2 : p ∈ remote := List.mem_dedup.1 ((ho _ _).subset hp)
      have := (hsame p).2 hp2
      simpa using this
    rw [e1, e2]
    rfl

/-- C5, on the example: the server lists `a/b` and `c` below the root, the
local files are `a/b` and `d`; the text returned is the `+` line of `d`
followed by the `-` line of `c`. -/
theorem diffFiles_symmetric_difference_witness :
    exampleServer.diffFiles listingWorld reverseOrder exampleConfig ".harp" exampleLocalFiles
      = Run.ok "+ 2K conf/d\n- c\n" := by
  obtain ⟨added, removed, h, ha, hr, _⟩ :=
    diffFiles_symmetric_difference listingWorld reverseOrder exampleConfig ".harp"
      exampleLocalFiles exampleServer ["a/b", "c"] reverseOrder_valid (Or.inl rfl) rfl
      (by decide) (by decide) (by decide) (by decide) (by decide) (by decide)
  have e1 : ((exampleLocalFiles.map Prod.snd).filter fun f => f.relDst ∉ ["a/b", "c"]) =
      [LocalFile.mk "2K" "conf/d" "d"] := by decide
  have e2 : ((["a/b", "c"] : List String).dedup.filter
      fun p => p ∉ exampleLocalFiles.map fun kv => kv.2.relDst) = ["c"] := by decide
  rw [e1] at ha
  rw [e2] at hr
  rw [h, List.perm_singleton.1 ha, List.perm_singleton.1 hr]
  decide

/-! ## The lines and fields of the save-release script -/

end Harp
